import Mathlib

/-!
Verification development for the MMMocap multi-view pose reconstruction core.

The definitions below are a shallow embedding of the C++ sources
(Source/MathUtils.cxx, Source/Views.cxx, Source/QuickPose.cxx and the
vector/matrix kernels of Source/External/Ink used by them) over exact rational
arithmetic.  Machine floats are modelled by rationals; fixed-size C++ arrays
and vectors indexed by view/joint-type are modelled by total functions with an
Option value standing for the NO_CHOICE sentinel; std::unordered_map keyed
stores are modelled by functions from the packed key to Option values.
-/

/-! ### Ink vector and matrix kernel (Source/External/Ink, FVec3 / FMat3)

FVec3 and FMat3 over the rationals.  The FMat default constructor
zero-fills (std::fill_n(m, r * c, 0)), so the Lean zero values below are the
values the C++ accumulation loops start from.
-/

structure Vec3 where
  x : ℚ
  y : ℚ
  z : ℚ
deriving DecidableEq

instance : Inhabited Vec3 := ⟨⟨0, 0, 0⟩⟩

def Vec3.zero : Vec3 := ⟨0, 0, 0⟩

def Vec3.add (a b : Vec3) : Vec3 := ⟨a.x + b.x, a.y + b.y, a.z + b.z⟩

def Vec3.sub (a b : Vec3) : Vec3 := ⟨a.x - b.x, a.y - b.y, a.z - b.z⟩

def Vec3.smul (q : ℚ) (a : Vec3) : Vec3 := ⟨q * a.x, q * a.y, q * a.z⟩

def Vec3.dot (a b : Vec3) : ℚ := a.x * b.x + a.y * b.y + a.z * b.z

/-- Squared Euclidean distance between two points.  FVec3::distance takes the
square root; all comparisons in the embedded code compare distances against
nonnegative bounds, which is equivalent to comparing the squares. -/
def Vec3.dist2 (a b : Vec3) : ℚ :=
  (a.x - b.x) * (a.x - b.x) + (a.y - b.y) * (a.y - b.y) + (a.z - b.z) * (a.z - b.z)

/-- Row-major 3x3 rational matrix, entry mij = row i column j, matching the
FMat(initializer_list) layout used in MathUtils.cxx. -/
structure Mat3 where
  m00 : ℚ
  m01 : ℚ
  m02 : ℚ
  m10 : ℚ
  m11 : ℚ
  m12 : ℚ
  m20 : ℚ
  m21 : ℚ
  m22 : ℚ
deriving DecidableEq

instance : Inhabited Mat3 := ⟨⟨0, 0, 0, 0, 0, 0, 0, 0, 0⟩⟩

def Mat3.zero : Mat3 := ⟨0, 0, 0, 0, 0, 0, 0, 0, 0⟩

def Mat3.add (a b : Mat3) : Mat3 :=
  ⟨a.m00 + b.m00, a.m01 + b.m01, a.m02 + b.m02,
   a.m10 + b.m10, a.m11 + b.m11, a.m12 + b.m12,
   a.m20 + b.m20, a.m21 + b.m21, a.m22 + b.m22⟩

def Mat3.smul (q : ℚ) (a : Mat3) : Mat3 :=
  ⟨q * a.m00, q * a.m01, q * a.m02,
   q * a.m10, q * a.m11, q * a.m12,
   q * a.m20, q * a.m21, q * a.m22⟩

/-- Matrix-vector product (operator* of FMat<3,3> with FVec3). -/
def Mat3.mulVec (m : Mat3) (v : Vec3) : Vec3 :=
  ⟨m.m00 * v.x + m.m01 * v.y + m.m02 * v.z,
   m.m10 * v.x + m.m11 * v.y + m.m12 * v.z,
   m.m20 * v.x + m.m21 * v.y + m.m22 * v.z⟩

/-- Ink::determinant_3x3, transcribed from Ink.cxx. -/
def determinant_3x3 (m : Mat3) : ℚ :=
  m.m00 * (m.m11 * m.m22 - m.m21 * m.m12) +
  m.m01 * (m.m12 * m.m20 - m.m10 * m.m22) +
  m.m02 * (m.m10 * m.m21 - m.m20 * m.m11)

/-- Ink::inverse_3x3, transcribed from Ink.cxx (adjugate over determinant).
Rational division by zero yields 0 in Lean; every use below is either at a
concrete input or under a nonzero-determinant hypothesis. -/
def inverse_3x3 (m : Mat3) : Mat3 :=
  let inv0 := m.m11 * m.m22 - m.m21 * m.m12
  let inv1 := m.m12 * m.m20 - m.m10 * m.m22
  let inv2 := m.m10 * m.m21 - m.m20 * m.m11
  let inv_det := 1 / (m.m00 * inv0 + m.m01 * inv1 + m.m02 * inv2)
  ⟨inv_det * inv0,
   inv_det * (m.m02 * m.m21 - m.m01 * m.m22),
   inv_det * (m.m01 * m.m12 - m.m02 * m.m11),
   inv_det * inv1,
   inv_det * (m.m00 * m.m22 - m.m02 * m.m20),
   inv_det * (m.m10 * m.m02 - m.m00 * m.m12),
   inv_det * inv2,
   inv_det * (m.m20 * m.m01 - m.m00 * m.m21),
   inv_det * (m.m00 * m.m11 - m.m10 * m.m01)⟩

/-- Ink::Ray: an origin and a direction (the direction is normalized by the
producers of rays; theorems that need unit length state it as a hypothesis). -/
structure Ray where
  origin : Vec3
  direction : Vec3
deriving DecidableEq

instance : Inhabited Ray := ⟨⟨Vec3.zero, Vec3.zero⟩⟩

/-! ### MathUtils (Source/MathUtils.cxx) -/

/-- The per-ray normal-equations contribution d·dᵗ − I built inside both
MathUtils::multiRayIntersect overloads. -/
def rayNormalMat (d : Vec3) : Mat3 :=
  ⟨d.x * d.x - 1, d.x * d.y, d.x * d.z,
   d.y * d.x, d.y * d.y - 1, d.y * d.z,
   d.z * d.x, d.z * d.y, d.z * d.z - 1⟩

/-- MathUtils::multiRayIntersect(rays, size) — the unweighted overload.
Accumulates A += N and b += N·origin over the rays, then returns
inverse_3x3(A) · b. -/
def multiRayIntersect (rays : List Ray) : Vec3 :=
  let Ab := rays.foldl
    (fun acc r =>
      let N := rayNormalMat r.direction
      (acc.1.add N, acc.2.add (N.mulVec r.origin)))
    (Mat3.zero, Vec3.zero)
  (inverse_3x3 Ab.1).mulVec Ab.2

/-- MathUtils::multiRayIntersect(rays, confs, size) — the weighted overload.
Accumulates A += N·w and b += N·origin·w over the (ray, weight) pairs. -/
def multiRayIntersectW (rays : List (Ray × ℚ)) : Vec3 :=
  let Ab := rays.foldl
    (fun acc rw =>
      let N := rayNormalMat rw.1.direction
      (acc.1.add (N.smul rw.2), acc.2.add ((N.mulVec rw.1.origin).smul rw.2)))
    (Mat3.zero, Vec3.zero)
  (inverse_3x3 Ab.1).mulVec Ab.2

/-- The accumulated (A, b) pair of the weighted overload, exposed for stating
which linear system the triangulation solves. -/
def weightedNormalSystem (rays : List (Ray × ℚ)) : Mat3 × Vec3 :=
  rays.foldl
    (fun acc rw =>
      let N := rayNormalMat rw.1.direction
      (acc.1.add (N.smul rw.2), acc.2.add ((N.mulVec rw.1.origin).smul rw.2)))
    (Mat3.zero, Vec3.zero)

/-- The accumulated (A, b) pair of the unweighted overload. -/
def unweightedNormalSystem (rays : List Ray) : Mat3 × Vec3 :=
  rays.foldl
    (fun acc r =>
      let N := rayNormalMat r.direction
      (acc.1.add N, acc.2.add (N.mulVec r.origin)))
    (Mat3.zero, Vec3.zero)

theorem multiRayIntersectW_eq_solve (rays : List (Ray × ℚ)) :
    multiRayIntersectW rays =
      (inverse_3x3 (weightedNormalSystem rays).1).mulVec (weightedNormalSystem rays).2 := by
  rfl

theorem multiRayIntersect_eq_solve (rays : List Ray) :
    multiRayIntersect rays =
      (inverse_3x3 (unweightedNormalSystem rays).1).mulVec (unweightedNormalSystem rays).2 := by
  rfl

/-- The inverse_3x3 formula really inverts: applying it after m recovers the
vector whenever the determinant is nonzero. -/
theorem inverse_3x3_mulVec_cancel (m : Mat3) (v : Vec3)
    (hdet : determinant_3x3 m ≠ 0) :
    (inverse_3x3 m).mulVec (m.mulVec v) = v := by
  obtain ⟨a, b, c, d, e, f, g, h, i⟩ := m
  obtain ⟨vx, vy, vz⟩ := v
  simp only [determinant_3x3] at hdet
  simp only [inverse_3x3, Mat3.mulVec, Vec3.mk.injEq]
  refine ⟨?_, ?_, ?_⟩
  all_goals field_simp
  all_goals ring

theorem Mat3.add_mulVec (A B : Mat3) (v : Vec3) :
    (A.add B).mulVec v = (A.mulVec v).add (B.mulVec v) := by
  obtain ⟨a, b, c, d, e, f, g, h, i⟩ := A
  obtain ⟨a2, b2, c2, d2, e2, f2, g2, h2, i2⟩ := B
  obtain ⟨vx, vy, vz⟩ := v
  simp only [Mat3.add, Mat3.mulVec, Vec3.add, Vec3.mk.injEq]
  refine ⟨by ring, by ring, by ring⟩

theorem Mat3.smul_mulVec (w : ℚ) (A : Mat3) (v : Vec3) :
    (A.smul w).mulVec v = (A.mulVec v).smul w := by
  obtain ⟨a, b, c, d, e, f, g, h, i⟩ := A
  obtain ⟨vx, vy, vz⟩ := v
  simp only [Mat3.smul, Mat3.mulVec, Vec3.smul, Vec3.mk.injEq]
  refine ⟨by ring, by ring, by ring⟩

/-- A normalized direction annihilates its own normal-equations matrix:
(d·dᵗ − I)·(o + t·d) = (d·dᵗ − I)·o when |d| = 1. -/
theorem rayNormalMat_mulVec_on_ray (o d : Vec3) (t : ℚ) (hunit : d.dot d = 1) :
    (rayNormalMat d).mulVec (o.add (d.smul t)) = (rayNormalMat d).mulVec o := by
  obtain ⟨ox, oy, oz⟩ := o
  obtain ⟨dx, dy, dz⟩ := d
  simp only [Vec3.dot] at hunit
  simp only [rayNormalMat, Mat3.mulVec, Vec3.add, Vec3.smul, Vec3.mk.injEq]
  refine ⟨by linear_combination (t * dx) * hunit, by linear_combination (t * dy) * hunit,
    by linear_combination (t * dz) * hunit⟩

theorem weightedNormalSystem_fold_aux (X : Vec3) (rays : List (Ray × ℚ)) :
    ∀ init : Mat3 × Vec3,
      (∀ rw ∈ rays, rw.1.direction.dot rw.1.direction = 1 ∧
          ∃ t : ℚ, rw.1.origin.add (rw.1.direction.smul t) = X) →
      init.1.mulVec X = init.2 →
      (rays.foldl
        (fun acc rw =>
          let N := rayNormalMat rw.1.direction
          (acc.1.add (N.smul rw.2), acc.2.add ((N.mulVec rw.1.origin).smul rw.2)))
        init).1.mulVec X =
      (rays.foldl
        (fun acc rw =>
          let N := rayNormalMat rw.1.direction
          (acc.1.add (N.smul rw.2), acc.2.add ((N.mulVec rw.1.origin).smul rw.2)))
        init).2 := by
  induction rays with
  | nil => intro init _ hinit; exact hinit
  | cons rw rest ih =>
      intro init h hinit
      refine ih _ (fun p hp => h p (List.mem_cons_of_mem rw hp)) ?_
      obtain ⟨hu, t, ht⟩ := h rw (List.mem_cons_self rw rest)
      have hfix : (rayNormalMat rw.1.direction).mulVec X =
          (rayNormalMat rw.1.direction).mulVec rw.1.origin := by
        rw [← ht]; exact rayNormalMat_mulVec_on_ray rw.1.origin rw.1.direction t hu
      simp only [List.foldl_cons, Mat3.add_mulVec, Mat3.smul_mulVec, hinit, hfix]

/-- If every ray of the weighted system passes through X (with unit direction),
the accumulated system (A, b) satisfies A·X = b. -/
theorem weightedNormalSystem_solves (rays : List (Ray × ℚ)) (X : Vec3)
    (h : ∀ rw ∈ rays, rw.1.direction.dot rw.1.direction = 1 ∧
        ∃ t : ℚ, rw.1.origin.add (rw.1.direction.smul t) = X) :
    (weightedNormalSystem rays).1.mulVec X = (weightedNormalSystem rays).2 := by
  exact weightedNormalSystem_fold_aux X rays (Mat3.zero, Vec3.zero) h
    (by simp [Mat3.zero, Mat3.mulVec, Vec3.zero])

/-- C7: for N ≥ 2 rays with unit directions all passing through a common point
X, with the accumulated normal-equations matrix invertible (nonzero
determinant), the weighted MathUtils::multiRayIntersect returns X for any
positive per-ray confidence weights. -/
theorem C7_multiRayIntersect_common_point (rays : List (Ray × ℚ)) (X : Vec3)
    (hlen : 2 ≤ rays.length)
    (hray : ∀ rw ∈ rays, rw.1.direction.dot rw.1.direction = 1 ∧
        ∃ t : ℚ, rw.1.origin.add (rw.1.direction.smul t) = X)
    (hpos : ∀ rw ∈ rays, 0 < rw.2)
    (hdet : determinant_3x3 (weightedNormalSystem rays).1 ≠ 0) :
    multiRayIntersectW rays = X := by
  rw [multiRayIntersectW_eq_solve, ← weightedNormalSystem_solves rays X hray]
  exact inverse_3x3_mulVec_cancel _ _ hdet

def c7WitnessRays : List (Ray × ℚ) :=
  [(⟨⟨-1, 0, 0⟩, ⟨1, 0, 0⟩⟩, 1), (⟨⟨0, -2, 0⟩, ⟨0, 1, 0⟩⟩, 2)]

/-- Witness for C7: two concrete unit-direction rays through the origin with
weights 1 and 2 satisfy all hypotheses, and the weighted triangulation
returns the origin. -/
theorem C7_witness :
    2 ≤ c7WitnessRays.length ∧
    determinant_3x3 (weightedNormalSystem c7WitnessRays).1 ≠ 0 ∧
    multiRayIntersectW c7WitnessRays = ⟨0, 0, 0⟩ := by
  have hray : ∀ rw ∈ c7WitnessRays, rw.1.direction.dot rw.1.direction = 1 ∧
      ∃ t : ℚ, rw.1.origin.add (rw.1.direction.smul t) = (⟨0, 0, 0⟩ : Vec3) := by
    intro rw hrw
    simp only [c7WitnessRays, List.mem_cons, List.not_mem_nil, or_false] at hrw
    rcases hrw with h | h
    · subst h
      exact ⟨by norm_num [Vec3.dot], 1, by norm_num [Vec3.add, Vec3.smul]⟩
    · subst h
      exact ⟨by norm_num [Vec3.dot], 2, by norm_num [Vec3.add, Vec3.smul]⟩
  have hdet : determinant_3x3 (weightedNormalSystem c7WitnessRays).1 ≠ 0 := by
    norm_num [c7WitnessRays, weightedNormalSystem, rayNormalMat, Mat3.zero, Vec3.zero,
      Mat3.add, Mat3.smul, Mat3.mulVec, Vec3.add, Vec3.smul, determinant_3x3]
  refine ⟨by norm_num [c7WitnessRays], hdet, ?_⟩
  exact C7_multiRayIntersect_common_point c7WitnessRays ⟨0, 0, 0⟩
    (by norm_num [c7WitnessRays]) hray
    (by intro rw hrw
        simp only [c7WitnessRays, List.mem_cons, List.not_mem_nil, or_false] at hrw
        rcases hrw with h | h <;> subst h <;> norm_num)
    hdet

/-! ### Data model (Source/Views.h, Source/QuickPose.h)

A Joint is one 2D detection candidate: global ID, derived ray, confidence.
A View stores the per-joint-type candidate lists and the part-affinity scores;
a MultiView additionally stores cross-view epipolar scores.  The search
(QuickPose::compute) assumes both score stores fully precomputed — View::getPAF
and MultiView::getEpipolar then always find a value — so for the search
embedding the two stores are modelled as total functions on candidate IDs.
The throwing keyed-store lookup itself is modelled separately further below
(View.getPAF / MultiView.getEpipolar over packed keys) for the lookup claims. -/

structure Joint where
  ID : ℕ
  ray : Ray
  conf : ℚ

instance : Inhabited Joint := ⟨⟨0, default, 0⟩⟩

structure View where
  joints : List (List Joint)
  paf : ℕ → ℕ → ℚ

instance : Inhabited View := ⟨⟨[], fun _ _ => 0⟩⟩

structure MultiView where
  views : List View
  epi : ℕ → ℕ → ℚ

/-- Candidate lookup multiview.views[view].joints[jointType][choice].  C++
indexing is modelled with getD; the search only forms in-bounds indices. -/
def jointAt (mv : MultiView) (view jointType choice : ℕ) : Joint :=
  (((mv.views.getD view default).joints.getD jointType []).getD choice default)

/-- QCluster (Source/QuickPose.h): per-(view, joint type) candidate choice
(Option ℕ models the NO_CHOICE = -1 sentinel), accumulated score, triangulated
world positions, and the main view of the pass that built it.

The extra field terms is a proof-carrying audit trail with no C++ counterpart:
it records the accepted pairwise score terms currently incorporated in score,
and is pushed/saved/restored at exactly the program points where the C++
updates, saves or restores score.  It exists to state the score-integrity
invariant (the stored score is the sum of the recorded terms). -/
structure QCluster where
  mainView : ℕ
  score : ℚ
  choices : ℕ → ℕ → Option ℕ
  worldPos : ℕ → Vec3
  terms : List ℚ

def QCluster.getJoint (c : QCluster) (view jointType : ℕ) : Option ℕ :=
  c.choices view jointType

def QCluster.setJoint (c : QCluster) (view jointType : ℕ) (choice : Option ℕ) : QCluster :=
  { c with choices := fun v t => if v = view ∧ t = jointType then choice else c.choices v t }

/-- QuickPose's bone-length table: unordered_map keyed by
jointTypeA + jointTypeB * 2^16 (constant I16 in QuickPose.cxx).  A missing pair
means getMaxBoneLength returns FLT_MAX, i.e. no constraint: modelled as none. -/
structure QuickPoseCfg where
  maxBoneLengths : ℕ → Option ℚ

/-- QuickPose::getMaxBoneLength: probe both key packings; none = FLT_MAX. -/
def getMaxBoneLength (cfg : QuickPoseCfg) (jointTypeA jointTypeB : ℕ) : Option ℚ :=
  match cfg.maxBoneLengths (jointTypeA + jointTypeB * 65536) with
  | some v => some v
  | none => cfg.maxBoneLengths (jointTypeA * 65536 + jointTypeB)

/-- The bone-length gate boneLength > maxBoneLength, compared on squares
(equivalent for the nonnegative lengths the table holds); none (FLT_MAX) is
never exceeded. -/
def boneExceeded (pa pb : Vec3) (lim : Option ℚ) : Bool :=
  match lim with
  | none => false
  | some m => decide (m * m < pa.dist2 pb)

/-- The EPS threshold of QuickPose.cxx. -/
def EPS : ℚ := 1 / 10000

/-- The parents table of QuickPose::initBody25.  The function assigns parents
twice; the second (New Parent) assignment is the effective one. -/
def parentsBody25 : List ℤ :=
  [1, 8, 1, 2, 3, 1, 5, 6, -1, 8, 9, 10, 8, 12, 13, 0, 0, 2, 5, 14, 19, 14, 11, 22, 11]

def parentOf (t : ℕ) : ℕ := (parentsBody25.getD t (-1)).toNat

/-- QuickPose::computeWorldPos.  Walks the views in viewOrder position order,
gathering the ray and the squared confidence of each assigned candidate of the
joint type (the squared confidences are gathered exactly as the C++ fills its
confs array, but — like the C++ — they are not passed on to the triangulation,
which uses the unweighted multiRayIntersect overload). -/
def gatherRaysConfs (mv : MultiView) (viewOrder : List ℕ) (cluster : QCluster)
    (jointType : ℕ) : List (Ray × ℚ) :=
  (List.range mv.views.length).filterMap (fun viewI =>
    let view := viewOrder.getD viewI 0
    match cluster.getJoint view jointType with
    | none => none
    | some choice =>
        let j := jointAt mv view jointType choice
        some (j.ray, j.conf * j.conf))

def computeWorldPos (mv : MultiView) (viewOrder : List ℕ) (cluster : QCluster)
    (jointType : ℕ) : QCluster × Bool :=
  let gathered := gatherRaysConfs mv viewOrder cluster jointType
  if gathered.length < 2 then (cluster, false)
  else
    ({ cluster with
        worldPos := fun t =>
          if t = jointType then multiRayIntersect (gathered.map Prod.fst)
          else cluster.worldPos t },
      true)

/-! ### The recursive search QuickPose::compute(multiview, cluster, viewI, jointI)

The mutable search state: the working cluster, the historyScores array (with
its terms-audit shadow), and the preserved-cluster output list (the C++ writes
preservedClusters[clusterNum++]; the embedding appends to a list, leaving the
question whether clusterNum stays within the preallocated capacity to claim
C8).  The recursion is driven by fuel; every recursive call of the C++ either
increases jointI or increases viewI, so any fuel of at least
(jointOrder.length + 1) * (viewNum + 1) makes the embedding total on the
reachable arguments.  Exhausted fuel returns the state unchanged. -/

structure SearchState where
  cluster : QCluster
  histScore : ℕ → ℚ
  histTerms : ℕ → List ℚ
  preserved : List QCluster

structure SearchEnv where
  mv : MultiView
  cfg : QuickPoseCfg
  vo : List ℕ
  jo : List ℕ

/-- The bone-length gate (QuickPose.cxx lines 233-241): on violation, clear
the main-view choice of the current joint type and roll the score back to the
history entry of the previous position. -/
def boneGate (env : SearchEnv) (jointI : ℕ) (histScore : ℕ → ℚ)
    (histTerms : ℕ → List ℚ) (cl2 : QCluster) : QCluster :=
  if jointI ≠ 0 ∧
      boneExceeded (cl2.worldPos (parentOf (env.jo.getD jointI 0)))
        (cl2.worldPos (env.jo.getD jointI 0))
        (getMaxBoneLength env.cfg (env.jo.getD jointI 0) (parentOf (env.jo.getD jointI 0))) then
    { (cl2.setJoint (env.vo.getD 0 0) (env.jo.getD jointI 0) none) with
      score := histScore (jointI - 1),
      terms := histTerms (jointI - 1) }
  else cl2

/-- The rollback of the skip branch at the last view (QuickPose.cxx lines
273-286): with fewer than two rays, clear the main-view choice and reset the
score (to 0 at the pass root); otherwise apply the bone-length gate. -/
def skipGate (env : SearchEnv) (jointI : ℕ) (histScore : ℕ → ℚ)
    (histTerms : ℕ → List ℚ) (wp : QCluster × Bool) : QCluster :=
  if wp.2 = false then
    { ((wp.1).setJoint (env.vo.getD 0 0) (env.jo.getD jointI 0) none) with
      score := if jointI = 0 then 0 else histScore (jointI - 1),
      terms := if jointI = 0 then [] else histTerms (jointI - 1) }
  else boneGate env jointI histScore histTerms wp.1

/-- The common tail of both shift-to-next-joint paths (QuickPose.cxx lines
243-246 and 288-291): record the history entry for this position, recurse into
the next joint type, then restore the main-view choice read before the shift. -/
def shiftCore (env : SearchEnv) (recurse : ℕ → ℕ → SearchState → SearchState)
    (jointI : ℕ) (st1 : SearchState) (cl3 : QCluster) : SearchState :=
  let jointType := env.jo.getD jointI 0
  let view0Choice := st1.cluster.getJoint (env.vo.getD 0 0) jointType
  let st2 := { st1 with
    cluster := cl3,
    histScore := fun j => if j = jointI then cl3.score else st1.histScore j,
    histTerms := fun j => if j = jointI then cl3.terms else st1.histTerms j }
  let st3 := recurse 0 (jointI + 1) st2
  { st3 with cluster := st3.cluster.setJoint (env.vo.getD 0 0) jointType view0Choice }

/-- The shift-to-next-joint block of the candidate branch at the last view
(QuickPose.cxx lines 223-246): read the main-view choice, triangulate, apply
the bone-length gate (with its main-view-clearing score rollback), record the
history entry, recurse into the next joint type, and restore the main-view
choice. -/
def nextJointShift (env : SearchEnv) (recurse : ℕ → ℕ → SearchState → SearchState)
    (jointI : ℕ) (st1 : SearchState) : SearchState :=
  shiftCore env recurse jointI st1
    (boneGate env jointI st1.histScore st1.histTerms
      (computeWorldPos env.mv env.vo st1.cluster (env.jo.getD jointI 0)).1)

/-- The accepted-candidate body of the candidate loop (QuickPose.cxx lines
219-256): set the choice, add the pairwise terms to the score, shift to the
next joint at the last view or to the next view otherwise, then undo the
assignment and restore the score. -/
def candAccept (env : SearchEnv) (recurse : ℕ → ℕ → SearchState → SearchState)
    (viewI jointI : ℕ) (st : SearchState) (choice : ℕ) (scorePAF scoreEpi : ℚ) :
    SearchState :=
  let viewNum := env.mv.views.length
  let view := env.vo.getD viewI 0
  let jointType := env.jo.getD jointI 0
  let originalScore := st.cluster.score
  let originalTerms := st.cluster.terms
  let cl1 := (st.cluster.setJoint view jointType (some choice))
  let cl1 := { cl1 with
    score := cl1.score + (scorePAF + scoreEpi),
    terms := (scorePAF + scoreEpi) :: cl1.terms }
  let st1 := { st with cluster := cl1 }
  let stRec :=
    if viewI = viewNum - 1 then nextJointShift env recurse jointI st1
    else recurse (viewI + 1) jointI st1
  let clEnd := (stRec.cluster.setJoint view jointType none)
  { stRec with cluster := { clEnd with score := originalScore, terms := originalTerms } }

/-- One iteration of the candidate loop (QuickPose.cxx lines 188-257) for a
given candidate choice: the PAF gate, the epipolar scan over previously
visited views, then the accepted-candidate body. -/
def candStep (env : SearchEnv) (recurse : ℕ → ℕ → SearchState → SearchState)
    (viewI jointI : ℕ) (parentChoice : Option ℕ) (acc : SearchState × Bool)
    (choice : ℕ) : SearchState × Bool :=
  let st := acc.1
  let view := env.vo.getD viewI 0
  let jointType := env.jo.getD jointI 0
  let isNotRoot := jointI ≠ 0
  let parentType := parentOf jointType
  let curJoint := jointAt env.mv view jointType choice
  let parentJoint := jointAt env.mv view parentType (parentChoice.getD 0)
  let scorePAF := if isNotRoot then (env.mv.views.getD view default).paf parentJoint.ID curJoint.ID else 0
  if isNotRoot ∧ scorePAF < EPS then acc
  else
    let epiScan := (List.range viewI).foldl
      (fun (er : Bool × ℚ) prevViewI =>
        if er.1 = false then er
        else
          match st.cluster.choices (env.vo.getD prevViewI 0) jointType with
          | none => er
          | some prevChoice =>
              if env.mv.epi (jointAt env.mv (env.vo.getD prevViewI 0) jointType prevChoice).ID curJoint.ID < EPS then
                (false, er.2)
              else
                (true, er.2 +
                  env.mv.epi (jointAt env.mv (env.vo.getD prevViewI 0) jointType prevChoice).ID curJoint.ID))
      (true, 0)
    if epiScan.1 = false then acc
    else (candAccept env recurse viewI jointI st choice scorePAF epiScan.2, true)

/-- The skip branch at the last view (QuickPose.cxx lines 265-292): triangulate
with whatever is assigned; if fewer than 2 rays, clear the main-view choice and
roll the score back (to 0 at the pass root); otherwise apply the bone-length
gate; then record the history entry and shift to the next joint type. -/
def lastViewSkip (env : SearchEnv) (recurse : ℕ → ℕ → SearchState → SearchState)
    (jointI : ℕ) (st : SearchState) : SearchState :=
  let originalScore := st.cluster.score
  let originalTerms := st.cluster.terms
  let stS := shiftCore env recurse jointI st
    (skipGate env jointI st.histScore st.histTerms
      (computeWorldPos env.mv env.vo st.cluster (env.jo.getD jointI 0)))
  { stS with cluster := { stS.cluster with score := originalScore, terms := originalTerms } }

/-- One unfolding of QuickPose::compute(multiview, cluster, viewI, jointI)
(QuickPose.cxx lines 155-305), with recurse standing for the recursive call. -/
def qstep (env : SearchEnv) (recurse : ℕ → ℕ → SearchState → SearchState)
    (viewI jointI : ℕ) (st : SearchState) : SearchState :=
  if jointI = env.jo.length then
    { st with preserved := st.preserved ++ [st.cluster] }
  else
    let viewNum := env.mv.views.length
    let view := env.vo.getD viewI 0
    let jointType := env.jo.getD jointI 0
    let isNotRoot := jointI ≠ 0
    let parentType := parentOf jointType
    let parentChoice := if isNotRoot then st.cluster.getJoint view parentType else some 0
    let choiceNum := ((env.mv.views.getD view default).joints.getD jointType []).length
    let loopOut :=
      if parentChoice ≠ none then
        (List.range choiceNum).foldl (candStep env recurse viewI jointI parentChoice) (st, false)
      else (st, false)
    let st1 := loopOut.1
    let successfulShift := loopOut.2
    if viewI = viewNum - 1 then
      lastViewSkip env recurse jointI st1
    else if viewI ≠ 0 then
      recurse (viewI + 1) jointI st1
    else if successfulShift = false then
      let st2 := { st1 with
        histScore := fun j => if j = jointI then st1.cluster.score else st1.histScore j,
        histTerms := fun j => if j = jointI then st1.cluster.terms else st1.histTerms j }
      recurse 0 (jointI + 1) st2
    else st1

/-- The fueled recursive search; exhausted fuel returns the state unchanged
(unreachable for the fuel used by computeAll). -/
def qcompute (env : SearchEnv) : ℕ → ℕ → ℕ → SearchState → SearchState
  | 0, _, _, st => st
  | fuel + 1, viewI, jointI, st => qstep env (qcompute env fuel) viewI jointI st

/-- The hard-wired camera permutations of QuickPose::compute. -/
def viewOrdersSrc : List (List ℕ) :=
  [[0, 1, 2, 3, 4], [1, 2, 3, 4, 0], [2, 3, 4, 0, 1], [3, 4, 0, 1, 2], [4, 0, 1, 2, 3]]

/-- The hard-wired joint-type orders (sub-skeleton passes) of
QuickPose::compute. -/
def jointOrdersSrc : List (List ℕ) :=
  [[8, 1, 2, 3, 4], [8, 1, 5, 6, 7], [8, 1, 0], [8, 9, 10, 11], [8, 12, 13, 14],
   [8, 1, 2, 17], [8, 1, 5, 18]]

/-- QuickPose::maxClusterNum (QuickPose.h line 66): the preallocated capacity
of the preserved-cluster array. -/
def maxClusterNum : ℕ := 100000

/-- Fuel bound: the recursion depth of one pass is at most
(jointOrder.length + 1) * (viewNum + 1) ≤ 36 for the hard-wired orders. -/
def searchFuel : ℕ := 64

def initialSearchState : SearchState :=
  { cluster :=
      { mainView := 0, score := 0, choices := fun _ _ => none,
        worldPos := fun _ => Vec3.zero, terms := [] },
    histScore := fun _ => 0,
    histTerms := fun _ => [],
    preserved := [] }

/-- The pass-driving loops of QuickPose::compute(multiview) (lines 125-132):
for each camera permutation, set the cluster's main view and run every
joint-order pass.  Returns the final search state, whose preserved list is the
content of preservedClusters[0..clusterNum). -/
def computeAll (mv : MultiView) (cfg : QuickPoseCfg) : SearchState :=
  viewOrdersSrc.foldl
    (fun st vo =>
      let st := { st with cluster := { st.cluster with mainView := vo.getD 0 0 } }
      jointOrdersSrc.foldl
        (fun st jo => qcompute { mv := mv, cfg := cfg, vo := vo, jo := jo } searchFuel 0 0 st)
        st)
    initialSearchState

/-! ### Concrete frames used by counterexamples and witnesses -/

/-- A camera view with no detections: 25 empty candidate lists (Body25). -/
def emptyView : View := { joints := List.replicate 25 [], paf := fun _ _ => 0 }

/-- A frame of 5 cameras with no detections in any camera. -/
def mvEmpty : MultiView := { views := List.replicate 5 emptyView, epi := fun _ _ => 0 }

/-- A bone-length table with no entries (every lookup yields FLT_MAX). -/
def cfgNone : QuickPoseCfg := { maxBoneLengths := fun _ => none }

/-! ### QuickPose::postProcessing (QuickPose.cxx lines 307-428)

The two claim tables are modelled as total functions returning Option ℕ
(none = -1 / NO_CHOICE): VJCPersons maps (view, joint type, candidate) to the
person owning that candidate, VJPChoices maps (view, joint type, person) to
the candidate recorded for that person.  The C++ preallocates VJPChoices with
maxPersonNum = 10 slots per (view, type); the function model is unbounded (the
resolution scenarios below stay far under 10 persons). -/

structure Pose where
  ID : ℕ
  hasJoint : ℕ → Bool
  jointPos : ℕ → Vec3

instance : Inhabited Pose := ⟨⟨0, fun _ => false, fun _ => Vec3.zero⟩⟩

structure ResolveState where
  VJCPersons : ℕ → ℕ → ℕ → Option ℕ
  VJPChoices : ℕ → ℕ → ℕ → Option ℕ
  poses : List Pose

def initResolveState : ResolveState :=
  { VJCPersons := fun _ _ _ => none, VJPChoices := fun _ _ _ => none, poses := [] }

/-- The first scan of a cluster (lines 337-358): determine whether it is
conflicting (claims span two different committed persons), whether it is
contributing (claims at least one unowned candidate), and the person it
touches first.  Scan order is types outward, views inward, with the
NO_CHOICE-at-main-view guard; the C++ break is modelled by freezing the
accumulator once the conflict flag is set. -/
def scanClaims (viewNum typeNum : ℕ) (st : ResolveState) (cluster : QCluster) :
    Bool × Bool × Option ℕ :=
  (List.range typeNum).foldl
    (fun acc t =>
      if acc.1 then acc
      else if cluster.getJoint cluster.mainView t = none then acc
      else
        (List.range viewNum).foldl
          (fun acc v =>
            if acc.1 then acc
            else
              match cluster.getJoint v t with
              | none => acc
              | some choice =>
                  match st.VJCPersons v t choice with
                  | none => (acc.1, true, acc.2.2)
                  | some p =>
                      match acc.2.2 with
                      | none => (acc.1, acc.2.1, some p)
                      | some q => if q ≠ p then (true, acc.2.1, acc.2.2) else acc)
          acc)
    (false, false, none)

/-- The merge check (lines 370-384): for an existing person, every claimed
candidate must agree with the candidate already recorded for that person at
the same (view, joint type). -/
def mergeConflict (viewNum typeNum : ℕ) (st : ResolveState) (cluster : QCluster)
    (personID : ℕ) : Bool :=
  (List.range typeNum).foldl
    (fun acc t =>
      if acc then acc
      else if cluster.getJoint cluster.mainView t = none then acc
      else
        (List.range viewNum).foldl
          (fun acc v =>
            if acc then acc
            else
              match cluster.getJoint v t with
              | none => acc
              | some choice =>
                  match st.VJPChoices v t personID with
                  | none => acc
                  | some recorded => if choice ≠ recorded then true else acc)
          acc)
    false

/-- The commit loop (lines 388-404): claim every (view, joint type, candidate)
triple for the person, and record the cluster's triangulated position for each
joint type the person does not have yet (first writer wins). -/
def commitCluster (viewNum typeNum : ℕ) (st : ResolveState) (cluster : QCluster)
    (personID : ℕ) : ResolveState :=
  (List.range typeNum).foldl
    (fun st t =>
      (List.range viewNum).foldl
        (fun st v =>
          if cluster.getJoint cluster.mainView t = none then st
          else
            match cluster.getJoint v t with
            | none => st
            | some choice =>
                let pose := st.poses.getD personID default
                let pose2 :=
                  if pose.hasJoint t = false then
                    { pose with
                      hasJoint := fun u => if u = t then true else pose.hasJoint u,
                      jointPos := fun u => if u = t then cluster.worldPos t else pose.jointPos u }
                  else pose
                { st with
                  VJCPersons := fun v2 t2 c2 =>
                    if v2 = v ∧ t2 = t ∧ c2 = choice then some personID
                    else st.VJCPersons v2 t2 c2,
                  VJPChoices := fun v2 t2 p2 =>
                    if v2 = v ∧ t2 = t ∧ p2 = personID then some choice
                    else st.VJPChoices v2 t2 p2,
                  poses := st.poses.set personID pose2 })
        st)
    st

/-- One iteration of the acceptance loop (lines 333-405) for one cluster. -/
def resolveStep (viewNum typeNum : ℕ) (st : ResolveState) (cluster : QCluster) :
    ResolveState :=
  let scan := scanClaims viewNum typeNum st cluster
  let isConflicting := scan.1
  let isContributing := scan.2.1
  if isConflicting ∨ isContributing = false then st
  else
    match scan.2.2 with
    | none =>
        let personID := st.poses.length
        let newPose : Pose :=
          { ID := personID, hasJoint := fun _ => false, jointPos := fun _ => Vec3.zero }
        commitCluster viewNum typeNum { st with poses := st.poses ++ [newPose] } cluster personID
    | some personID =>
        if mergeConflict viewNum typeNum st cluster personID then st
        else commitCluster viewNum typeNum st cluster personID

/-- Sorting by score descending (line 328: std::sort with score >).  std::sort
promises any ordering consistent with the comparator; the embedding fixes the
(stable) insertion sort of that relation. -/
def sortClusters (l : List QCluster) : List QCluster :=
  List.insertionSort (fun a b => b.score ≤ a.score) l

/-- QuickPose::postProcessing: sort the preserved clusters by score
descending, then greedily accept/merge/reject each one. -/
def postProcessing (mv : MultiView) (preserved : List QCluster) : List Pose :=
  let viewNum := mv.views.length
  let typeNum := (mv.views.getD 0 default).joints.length
  ((sortClusters preserved).foldl (resolveStep viewNum typeNum) initResolveState).poses

/-- QuickPose::compute(multiview): run all passes, then resolve. -/
def compute (mv : MultiView) (cfg : QuickPoseCfg) : List Pose :=
  postProcessing mv (computeAll mv cfg).preserved

instance : Inhabited QCluster :=
  ⟨{ mainView := 0, score := 0, choices := fun _ _ => none,
     worldPos := fun _ => Vec3.zero, terms := [] }⟩

/-! ### C1 failing input: three assigned candidates with confidences 1, 1, 1/2.

QuickPose::computeWorldPos fills its confs array with the squared confidences
(QuickPose.cxx lines 144-145) and then calls the unweighted
MathUtils::multiRayIntersect(rays, rayNum) (line 151), never passing confs.
The rays below are pairwise non-concurrent, so the weighted and unweighted
least-squares fusions differ. -/

def c1View (r : Ray) (cf : ℚ) (idv : ℕ) : View :=
  { joints := (List.range 9).map
      (fun t => if t = 8 then [{ ID := idv, ray := r, conf := cf }] else []),
    paf := fun _ _ => 1 }

def c1EmptyView : View := { joints := List.replicate 9 [], paf := fun _ _ => 1 }

def mvC1 : MultiView :=
  { views :=
      [c1View ⟨⟨0, 0, 0⟩, ⟨1, 0, 0⟩⟩ 1 100,
       c1View ⟨⟨0, 0, 1⟩, ⟨0, 1, 0⟩⟩ 1 200,
       c1View ⟨⟨0, 2, 0⟩, ⟨0, 0, 1⟩⟩ (1 / 2) 300,
       c1EmptyView, c1EmptyView],
    epi := fun _ _ => 1 }

/-- A cluster with the type-8 candidate assigned in views 0, 1 and 2. -/
def clusterC1 : QCluster :=
  { mainView := 0, score := 0,
    choices := fun v t => if v ≤ 2 ∧ t = 8 then some 0 else none,
    worldPos := fun _ => Vec3.zero, terms := [] }

def c1Gathered : List (Ray × ℚ) :=
  gatherRaysConfs mvC1 [0, 1, 2, 3, 4] clusterC1 8

def c1Result : QCluster × Bool :=
  computeWorldPos mvC1 [0, 1, 2, 3, 4] clusterC1 8

/-- C1: at the concrete input with confidences (1, 1, 1/2), computeWorldPos
succeeds and returns the unweighted least-squares point (0, 1, 1/2); this
point differs from the weighted overload's output on the very rays and squared
confidences the function gathered, and violates the weighted normal equations
(Σ wᵢNᵢ)x = Σ wᵢNᵢoᵢ with wᵢ = confᵢ².  The squared confidences are computed
and then dropped: the unweighted overload is called. -/
theorem C1_computeWorldPos_drops_confidence_weights :
    c1Result.2 = true ∧
    c1Result.1.worldPos 8 = ⟨0, 1, 1 / 2⟩ ∧
    c1Result.1.worldPos 8 = multiRayIntersect (c1Gathered.map Prod.fst) ∧
    c1Result.1.worldPos 8 ≠ multiRayIntersectW c1Gathered ∧
    (weightedNormalSystem c1Gathered).1.mulVec (c1Result.1.worldPos 8) ≠
      (weightedNormalSystem c1Gathered).2 := by
  with_unfolding_all decide

/-! ### The symmetric keyed score stores (Source/Views.cxx lines 41-78)

View::setPAF inserts at key joint1.ID + joint2.ID * 2^32 (constant I32);
View::getPAF probes that key first and falls back to .at on the transposed
key, which throws std::out_of_range when absent — modelled by Option, none
standing for the thrown lookup.  MultiView::setEpipolar / getEpipolar are
textually identical over their own map, so one model serves both; the two
claim-level theorems are stated over both names. -/

def KeyedStore : Type := ℕ → Option ℚ

def pairKey (id1 id2 : ℕ) : ℕ := id1 + id2 * 4294967296

def View.setPAF (store : KeyedStore) (joint1 joint2 : Joint) (value : ℚ) : KeyedStore :=
  fun k => if k = pairKey joint1.ID joint2.ID then some value else store k

def View.getPAF (store : KeyedStore) (joint1 joint2 : Joint) : Option ℚ :=
  match store (pairKey joint1.ID joint2.ID) with
  | some v => some v
  | none => store (pairKey joint2.ID joint1.ID)

def MultiView.setEpipolar (store : KeyedStore) (joint1 joint2 : Joint) (value : ℚ) : KeyedStore :=
  fun k => if k = pairKey joint1.ID joint2.ID then some value else store k

def MultiView.getEpipolar (store : KeyedStore) (joint1 joint2 : Joint) : Option ℚ :=
  match store (pairKey joint1.ID joint2.ID) with
  | some v => some v
  | none => store (pairKey joint2.ID joint1.ID)


theorem pairKey_comm_iff (a b : ℕ) : pairKey a b = pairKey b a ↔ a = b := by
  unfold pairKey
  omega

/-- C9: the PAF and epipolar keyed stores are symmetric: after a pair is
stored with setPAF/setEpipolar (with no stale transposed entry), lookup in
either argument order returns the stored value; and when neither key ordering
is present, the lookup fails (the C++ .at throws std::out_of_range, modelled
by none) instead of returning a value. -/
theorem C9_keyed_store_symmetric_and_loud (store : KeyedStore) (j1 j2 : Joint) (v : ℚ)
    (hrev : store (pairKey j2.ID j1.ID) = none) :
    (View.getPAF (View.setPAF store j1 j2 v) j1 j2 = some v ∧
     View.getPAF (View.setPAF store j1 j2 v) j2 j1 = some v ∧
     MultiView.getEpipolar (MultiView.setEpipolar store j1 j2 v) j1 j2 = some v ∧
     MultiView.getEpipolar (MultiView.setEpipolar store j1 j2 v) j2 j1 = some v) ∧
    (∀ store2 : KeyedStore,
      store2 (pairKey j1.ID j2.ID) = none → store2 (pairKey j2.ID j1.ID) = none →
      View.getPAF store2 j1 j2 = none ∧ MultiView.getEpipolar store2 j1 j2 = none) := by
  constructor
  · have hfwd : View.getPAF (View.setPAF store j1 j2 v) j1 j2 = some v := by
      unfold View.getPAF View.setPAF
      simp
    have hbwd : View.getPAF (View.setPAF store j1 j2 v) j2 j1 = some v := by
      unfold View.getPAF View.setPAF
      by_cases hid : j1.ID = j2.ID
      · simp [hid]
      · have hne : pairKey j2.ID j1.ID ≠ pairKey j1.ID j2.ID := by
          intro h
          exact hid ((pairKey_comm_iff j2.ID j1.ID).mp h).symm
        simp [hne, hrev]
    exact ⟨hfwd, hbwd, hfwd, hbwd⟩
  · intro store2 h12 h21
    constructor
    · unfold View.getPAF
      simp [h12, h21]
    · unfold MultiView.getEpipolar
      simp [h12, h21]

def c9EmptyStore : KeyedStore := fun _ => none

def c9Joint1 : Joint := { ID := 1, ray := default, conf := 0 }

def c9Joint2 : Joint := { ID := 2, ray := default, conf := 0 }

/-- Witness for C9 at a concrete empty store and joints with IDs 1 and 2. -/
theorem C9_witness :
    View.getPAF (View.setPAF c9EmptyStore c9Joint1 c9Joint2 5) c9Joint2 c9Joint1 = some 5 ∧
    View.getPAF c9EmptyStore c9Joint1 c9Joint2 = none := by
  have h := C9_keyed_store_symmetric_and_loud c9EmptyStore c9Joint1 c9Joint2 5 rfl
  exact ⟨h.1.2.1, (h.2 c9EmptyStore rfl rfl).1⟩

/-! ### C10: the hard-wired 5-camera precondition of QuickPose::compute

compute reads multiview.views[0] for typeNum, then for every pass iterates
viewI over [0, viewNum) indexing viewOrder[viewI] (a hard-wired permutation of
{0..4}) and multiview.views[viewOrder[viewI]] (computeWorldPos does the same
walk).  All those C++ accesses are in bounds exactly when: views is nonempty,
every loop index viewI < viewNum is a valid index into the 5-entry viewOrder,
and every viewOrder entry read is a valid view index. -/
def computeIndexSafe (viewNum : ℕ) : Prop :=
  0 < viewNum ∧
  ∀ vo ∈ viewOrdersSrc, ∀ i, i < viewNum → i < vo.length ∧ vo.getD i 0 < viewNum

instance (viewNum : ℕ) : Decidable (computeIndexSafe viewNum) := by
  unfold computeIndexSafe
  infer_instance

/-- C10: the indexing of QuickPose::compute over the hard-wired camera
permutations stays in bounds if and only if the frame has exactly 5 views. -/
theorem C10_compute_requires_exactly_five_views (viewNum : ℕ) :
    computeIndexSafe viewNum ↔ viewNum = 5 := by
  constructor
  · intro h
    match viewNum, h with
    | 0, h => exact absurd h (by decide)
    | 1, h => exact absurd h (by decide)
    | 2, h => exact absurd h (by decide)
    | 3, h => exact absurd h (by decide)
    | 4, h => exact absurd h (by decide)
    | 5, h => rfl
    | n + 6, h => {
        have h5 := (h.2 [0, 1, 2, 3, 4] (by decide) 5 (by omega)).1
        simp [viewOrdersSrc] at h5 }
  · rintro rfl
    decide

/-- Witness for C10: 5 views are index-safe. -/
theorem C10_witness : computeIndexSafe 5 :=
  (C10_compute_requires_exactly_five_views 5).mpr rfl

set_option maxRecDepth 400000 in
/-- C3 counterexample: on a frame with no detections in any camera the search
does not preserve zero clusters — the terminal case preserves unconditionally
(QuickPose.cxx line 165; the guard of line 164 is commented out), so every one
of the 5 x 7 passes preserves its (empty) cluster. -/
theorem C3_counterexample_empty_frame_preserves_nonzero :
    (computeAll mvEmpty cfgNone).preserved.length ≠ 0 := by
  with_unfolding_all decide

set_option maxRecDepth 400000 in
/-- C3 amended: a pass in which no candidate assignment succeeds still
preserves exactly one (empty, zero-score) cluster; on the no-detection frame
the 35 passes preserve 35 such clusters, every one rejected as
non-contributing during resolution, and compute returns zero persons. -/
theorem C3_empty_frame_zero_persons :
    (computeAll mvEmpty cfgNone).preserved.length = 35 ∧
    ((computeAll mvEmpty cfgNone).preserved.all (fun c => c.score = 0)) = true ∧
    compute mvEmpty cfgNone = [] := by
  refine ⟨by with_unfolding_all rfl, by with_unfolding_all rfl, ?_⟩
  with_unfolding_all rfl


/-! ### Permutation invariance of the triangulation accumulators

The search gathers rays in viewOrder position order while the preserved
cluster invariants below are stated against the canonical view order 0..4;
both accumulate the same sums. -/

theorem Mat3.maddc (a b : Mat3) : a.add b = b.add a := by
  obtain ⟨a0, a1, a2, a3, a4, a5, a6, a7, a8⟩ := a
  obtain ⟨b0, b1, b2, b3, b4, b5, b6, b7, b8⟩ := b
  simp only [Mat3.add, Mat3.mk.injEq]
  and_intros <;> ring

theorem Mat3.madda (a b c : Mat3) : (a.add b).add c = a.add (b.add c) := by
  obtain ⟨a0, a1, a2, a3, a4, a5, a6, a7, a8⟩ := a
  obtain ⟨b0, b1, b2, b3, b4, b5, b6, b7, b8⟩ := b
  obtain ⟨c0, c1, c2, c3, c4, c5, c6, c7, c8⟩ := c
  simp only [Mat3.add, Mat3.mk.injEq]
  and_intros <;> ring

theorem Mat3.maddz (a : Mat3) : Mat3.zero.add a = a := by
  obtain ⟨a0, a1, a2, a3, a4, a5, a6, a7, a8⟩ := a
  simp only [Mat3.add, Mat3.zero, Mat3.mk.injEq]
  and_intros <;> ring

instance : Zero Mat3 := ⟨Mat3.zero⟩

instance : Add Mat3 := ⟨Mat3.add⟩

instance : AddCommMonoid Mat3 where
  add := Mat3.add
  zero := Mat3.zero
  add_assoc := Mat3.madda
  zero_add := Mat3.maddz
  add_zero := fun a => (Mat3.maddc a Mat3.zero).trans (Mat3.maddz a)
  add_comm := Mat3.maddc
  nsmul := nsmulRec
  nsmul_zero := fun _ => rfl
  nsmul_succ := fun _ _ => rfl

example (a b : Mat3) : a + b = a.add b := rfl

theorem Vec3.vaddc (a b : Vec3) : a.add b = b.add a := by
  obtain ⟨a0, a1, a2⟩ := a
  obtain ⟨b0, b1, b2⟩ := b
  simp only [Vec3.add, Vec3.mk.injEq]
  and_intros <;> ring

theorem Vec3.vadda (a b c : Vec3) : (a.add b).add c = a.add (b.add c) := by
  obtain ⟨a0, a1, a2⟩ := a
  obtain ⟨b0, b1, b2⟩ := b
  obtain ⟨c0, c1, c2⟩ := c
  simp only [Vec3.add, Vec3.mk.injEq]
  and_intros <;> ring

theorem Vec3.vaddz (a : Vec3) : Vec3.zero.add a = a := by
  obtain ⟨a0, a1, a2⟩ := a
  simp only [Vec3.add, Vec3.zero, Vec3.mk.injEq]
  and_intros <;> ring

instance : Zero Vec3 := ⟨Vec3.zero⟩

instance : Add Vec3 := ⟨Vec3.add⟩

instance : AddCommMonoid Vec3 where
  add := Vec3.add
  zero := Vec3.zero
  add_assoc := Vec3.vadda
  zero_add := Vec3.vaddz
  add_zero := fun a => (Vec3.vaddc a Vec3.zero).trans (Vec3.vaddz a)
  add_comm := Vec3.vaddc
  nsmul := nsmulRec
  nsmul_zero := fun _ => rfl
  nsmul_succ := fun _ _ => rfl

theorem Mat3.madd_eq (a b : Mat3) : a.add b = a + b := rfl

theorem Vec3.vadd_eq (a b : Vec3) : a.add b = a + b := rfl

theorem unweightedNormalSystem_as_sums (l : List Ray) :
    unweightedNormalSystem l =
      ((l.map (fun r => rayNormalMat r.direction)).sum,
       (l.map (fun r => (rayNormalMat r.direction).mulVec r.origin)).sum) := by
  suffices H : ∀ A0 b0,
      (l.foldl
        (fun acc r =>
          let N := rayNormalMat r.direction
          (acc.1.add N, acc.2.add (N.mulVec r.origin)))
        (A0, b0)) =
      (A0 + (l.map (fun r => rayNormalMat r.direction)).sum,
       b0 + (l.map (fun r => (rayNormalMat r.direction).mulVec r.origin)).sum) by
    have h := H Mat3.zero Vec3.zero
    unfold unweightedNormalSystem
    rw [h]
    rw [Prod.mk.injEq]
    constructor
    · exact Mat3.maddz _
    · exact Vec3.vaddz _
  induction l with
  | nil => intro A0 b0; simp
  | cons r rest ih =>
      intro A0 b0
      rw [List.foldl_cons, ih]
      simp only [List.map_cons, List.sum_cons, Mat3.madd_eq, Vec3.vadd_eq]
      rw [Prod.mk.injEq]
      exact ⟨add_assoc _ _ _, add_assoc _ _ _⟩

theorem unweightedNormalSystem_perm (l1 l2 : List Ray) (h : l1.Perm l2) :
    unweightedNormalSystem l1 = unweightedNormalSystem l2 := by
  rw [unweightedNormalSystem_as_sums, unweightedNormalSystem_as_sums]
  rw [Prod.mk.injEq]
  exact ⟨List.Perm.sum_eq (List.Perm.map _ h), List.Perm.sum_eq (List.Perm.map _ h)⟩

theorem multiRayIntersect_perm (l1 l2 : List Ray) (h : l1.Perm l2) :
    multiRayIntersect l1 = multiRayIntersect l2 := by
  rw [multiRayIntersect_eq_solve, multiRayIntersect_eq_solve,
    unweightedNormalSystem_perm l1 l2 h]

/-! ### Search invariants

The per-view lookup made by computeWorldPos for one joint type, as a function
of the view index, and the canonical (view order 0..4) gathered list. -/

def gatherF (mv : MultiView) (ch : ℕ → ℕ → Option ℕ) (jointType v : ℕ) :
    Option (Ray × ℚ) :=
  match ch v jointType with
  | none => none
  | some choice =>
      let j := jointAt mv v jointType choice
      some (j.ray, j.conf * j.conf)

def canonGather (mv : MultiView) (ch : ℕ → ℕ → Option ℕ) (jointType : ℕ) :
    List (Ray × ℚ) :=
  (List.range 5).filterMap (gatherF mv ch jointType)

theorem gatherRaysConfs_eq (mv : MultiView) (vo : List ℕ) (cluster : QCluster)
    (jointType : ℕ) :
    gatherRaysConfs mv vo cluster jointType =
      (List.range mv.views.length).filterMap
        (fun viewI => gatherF mv cluster.choices jointType (vo.getD viewI 0)) := by
  unfold gatherRaysConfs gatherF QCluster.getJoint
  rfl

theorem filterMap_range_getD {α : Type} (l : List ℕ) (f : ℕ → Option α) :
    (List.range l.length).filterMap (fun i => f (l.getD i 0)) = l.filterMap f := by
  induction l with
  | nil => rfl
  | cons a rest ih =>
      rw [List.length_cons, List.range_succ_eq_map, List.filterMap_cons,
        List.filterMap_map]
      have hcomp :
          ((fun i => f ((a :: rest).getD i 0)) ∘ Nat.succ) = fun i => f (rest.getD i 0) := by
        funext i
        rfl
      rw [hcomp, ih]
      cases f a <;> rfl

/-- Over a 5-permutation view order, the viewOrder-ordered gather of
computeWorldPos is a permutation of the canonical gather. -/
theorem gatherRaysConfs_perm_canon (mv : MultiView) (vo : List ℕ) (cluster : QCluster)
    (jointType : ℕ) (h5 : mv.views.length = 5) (hvo : vo.Perm (List.range 5)) :
    (gatherRaysConfs mv vo cluster jointType).Perm
      (canonGather mv cluster.choices jointType) := by
  have hlen : vo.length = 5 := by
    have := hvo.length_eq
    simpa using this
  rw [gatherRaysConfs_eq, h5, ← hlen,
    filterMap_range_getD vo (gatherF mv cluster.choices jointType)]
  exact hvo.filterMap (gatherF mv cluster.choices jointType)

theorem canonGather_length (mv : MultiView) (ch : ℕ → ℕ → Option ℕ) (jointType : ℕ) :
    (canonGather mv ch jointType).length =
      (List.range 5).countP (fun v => (ch v jointType).isSome) := by
  unfold canonGather
  rw [List.length_filterMap_eq_countP]
  congr 1
  funext v
  unfold gatherF
  cases ch v jointType <;> rfl

/-- Two distinct views below 5 with assigned choices give the canonical gather
at least two entries. -/
theorem canonGather_two_le (mv : MultiView) (ch : ℕ → ℕ → Option ℕ) (jointType : ℕ)
    (v1 v2 : ℕ) (h1 : v1 < 5) (h2 : v2 < 5) (hne : v1 ≠ v2)
    (ha1 : (ch v1 jointType).isSome) (ha2 : (ch v2 jointType).isSome) :
    2 ≤ (canonGather mv ch jointType).length := by
  rw [canonGather_length, List.countP_eq_length_filter]
  have hsub : [v1, v2] ⊆ (List.range 5).filter (fun v => (ch v jointType).isSome) := by
    intro a ha
    simp only [List.mem_cons, List.not_mem_nil, or_false] at ha
    rcases ha with rfl | rfl
    · exact List.mem_filter.mpr ⟨List.mem_range.mpr h1, ha1⟩
    · exact List.mem_filter.mpr ⟨List.mem_range.mpr h2, ha2⟩
  have hnd : ([v1, v2] : List ℕ).Nodup := by
    simp [hne]
  have := (List.subperm_of_subset hnd hsub).length_le
  simpa using this

/-- The gate facts recorded by the search for the assignments currently in a
cluster, for the pass (vo, jo): every assigned candidate at a non-root
position has its same-view parent assigned with PAF at least EPS, and every
same-type pair assigned at two view positions has epipolar score at least EPS
(in the order the search queried it: earlier position first). -/
def gatesOK (env : SearchEnv) (ch : ℕ → ℕ → Option ℕ) : Prop :=
  (∀ jI, 1 ≤ jI → jI < env.jo.length → ∀ vI, vI < 5 → ∀ c,
      ch (env.vo.getD vI 0) (env.jo.getD jI 0) = some c →
      ∃ pc, ch (env.vo.getD vI 0) (parentOf (env.jo.getD jI 0)) = some pc ∧
        EPS ≤ (env.mv.views.getD (env.vo.getD vI 0) default).paf
          (jointAt env.mv (env.vo.getD vI 0) (parentOf (env.jo.getD jI 0)) pc).ID
          (jointAt env.mv (env.vo.getD vI 0) (env.jo.getD jI 0) c).ID) ∧
  (∀ jI, jI < env.jo.length → ∀ vI1 vI2, vI1 < vI2 → vI2 < 5 → ∀ c1 c2,
      ch (env.vo.getD vI1 0) (env.jo.getD jI 0) = some c1 →
      ch (env.vo.getD vI2 0) (env.jo.getD jI 0) = some c2 →
      EPS ≤ env.mv.epi
        (jointAt env.mv (env.vo.getD vI1 0) (env.jo.getD jI 0) c1).ID
        (jointAt env.mv (env.vo.getD vI2 0) (env.jo.getD jI 0) c2).ID)

/-- What the search guarantees about every cluster it preserves during the
pass (vo, jo). -/
def preservedGood (env : SearchEnv) (c : QCluster) : Prop :=
  c.mainView = env.vo.getD 0 0 ∧
  c.score = c.terms.sum ∧
  gatesOK env c.choices ∧
  (∀ t, (c.choices (env.vo.getD 0 0) t).isSome →
    2 ≤ (canonGather env.mv c.choices t).length ∧
    c.worldPos t = multiRayIntersect ((canonGather env.mv c.choices t).map Prod.fst))

/-- The choices-level inductive invariant at entry (viewI, jointI): joint
types at later positions are fully unassigned, the current joint type is
unassigned at the positions not visited yet, joint types outside the pass are
fully unassigned, and the recorded gate facts hold. -/
structure ChInv (env : SearchEnv) (viewI jointI : ℕ) (ch : ℕ → ℕ → Option ℕ) : Prop where
  laterNone : ∀ jI, jointI < jI → jI < env.jo.length → ∀ v, ch v (env.jo.getD jI 0) = none
  curNone : jointI < env.jo.length → ∀ vI, viewI ≤ vI → vI < 5 →
    ch (env.vo.getD vI 0) (env.jo.getD jointI 0) = none
  outNone : ∀ t, t ∉ env.jo → ∀ v, ch v t = none
  gates : gatesOK env ch

/-- Fully processed joint types with a main-view assignment have at least two
assigned views and the freshly triangulated world position. -/
def DoneOK (env : SearchEnv) (jointI : ℕ) (ch : ℕ → ℕ → Option ℕ) (wp : ℕ → Vec3) : Prop :=
  ∀ jI, jI < jointI → jI < env.jo.length →
    (ch (env.vo.getD 0 0) (env.jo.getD jI 0)).isSome →
    2 ≤ (canonGather env.mv ch (env.jo.getD jI 0)).length ∧
    wp (env.jo.getD jI 0) =
      multiRayIntersect ((canonGather env.mv ch (env.jo.getD jI 0)).map Prod.fst)

/-- The inductive invariant of QuickPose::compute at entry (viewI, jointI). -/
structure SearchInv (env : SearchEnv) (viewI jointI : ℕ) (st : SearchState) : Prop where
  mainViewEq : st.cluster.mainView = env.vo.getD 0 0
  scoreTerms : st.cluster.score = st.cluster.terms.sum
  histOK : ∀ j, st.histScore j = (st.histTerms j).sum
  chInv : ChInv env viewI jointI st.cluster.choices
  doneOK : DoneOK env jointI st.cluster.choices st.cluster.worldPos

/-- What one call of the search does to the state, seen from entry
(viewI, jointI): the cluster's choices, score, terms and main view are
restored; world positions of joint types not processed from jointI on are
untouched; the history stays consistent; and every newly preserved cluster is
preservedGood. -/
structure SearchOut (env : SearchEnv) (jointI : ℕ) (st st2 : SearchState) : Prop where
  choicesEq : st2.cluster.choices = st.cluster.choices
  scoreEq : st2.cluster.score = st.cluster.score
  termsEq : st2.cluster.terms = st.cluster.terms
  mainEq : st2.cluster.mainView = st.cluster.mainView
  wpEq : ∀ t, (∀ jI, jointI ≤ jI → jI < env.jo.length → env.jo.getD jI 0 ≠ t) →
    st2.cluster.worldPos t = st.cluster.worldPos t
  histOK : ∀ j, st2.histScore j = (st2.histTerms j).sum
  presGood : ∀ c ∈ st2.preserved, c ∈ st.preserved ∨ preservedGood env c

theorem setJoint_choices (c : QCluster) (view jointType : ℕ) (choice : Option ℕ)
    (v t : ℕ) :
    (c.setJoint view jointType choice).choices v t =
      if v = view ∧ t = jointType then choice else c.choices v t := rfl

theorem setJoint_mainView (c : QCluster) (view jointType : ℕ) (choice : Option ℕ) :
    (c.setJoint view jointType choice).mainView = c.mainView := rfl

theorem setJoint_score (c : QCluster) (view jointType : ℕ) (choice : Option ℕ) :
    (c.setJoint view jointType choice).score = c.score := rfl

theorem setJoint_worldPos (c : QCluster) (view jointType : ℕ) (choice : Option ℕ) :
    (c.setJoint view jointType choice).worldPos = c.worldPos := rfl

theorem canonGather_congr (mv : MultiView) (ch1 ch2 : ℕ → ℕ → Option ℕ) (t : ℕ)
    (h : ∀ v, ch1 v t = ch2 v t) :
    canonGather mv ch1 t = canonGather mv ch2 t := by
  unfold canonGather
  apply List.filterMap_congr
  intro v _
  unfold gatherF
  rw [h v]

theorem perm_range5_nodup (vo : List ℕ) (hvo : vo.Perm (List.range 5)) : vo.Nodup :=
  (List.Perm.nodup_iff hvo).mpr (List.nodup_range 5)

theorem perm_range5_length (vo : List ℕ) (hvo : vo.Perm (List.range 5)) : vo.length = 5 := by
  have := hvo.length_eq
  simpa using this

theorem perm_range5_getD_lt (vo : List ℕ) (hvo : vo.Perm (List.range 5)) (i : ℕ)
    (hi : i < 5) : vo.getD i 0 < 5 := by
  have hlen := perm_range5_length vo hvo
  have hi2 : i < vo.length := by omega
  have hmem : vo.getD i 0 ∈ vo := by
    rw [List.getD_eq_getElem vo 0 hi2]
    exact List.getElem_mem hi2
  have := hvo.mem_iff.mp hmem
  exact List.mem_range.mp this

theorem perm_range5_getD_inj (vo : List ℕ) (hvo : vo.Perm (List.range 5)) (i j : ℕ)
    (hi : i < 5) (hj : j < 5) (h : vo.getD i 0 = vo.getD j 0) : i = j := by
  have hlen := perm_range5_length vo hvo
  have hnd := perm_range5_nodup vo hvo
  have hi2 : i < vo.length := by omega
  have hj2 : j < vo.length := by omega
  rw [List.getD_eq_getElem vo 0 hi2, List.getD_eq_getElem vo 0 hj2] at h
  exact (List.Nodup.getElem_inj_iff hnd).mp h

theorem nodup_getD_ne (jo : List ℕ) (hjo : jo.Nodup) (i j : ℕ)
    (hi : i < jo.length) (hj : j < jo.length) (hij : i ≠ j) :
    jo.getD i 0 ≠ jo.getD j 0 := by
  rw [List.getD_eq_getElem jo 0 hi, List.getD_eq_getElem jo 0 hj]
  intro h
  exact hij ((List.Nodup.getElem_inj_iff hjo).mp h)

theorem mem_exists_getD (jo : List ℕ) (t : ℕ) (h : t ∈ jo) :
    ∃ jI, jI < jo.length ∧ jo.getD jI 0 = t := by
  obtain ⟨i, hi, hget⟩ := List.getElem_of_mem h
  exact ⟨i, hi, by rw [List.getD_eq_getElem jo 0 hi]; exact hget⟩

theorem computeWorldPos_choices (mv : MultiView) (vo : List ℕ) (c : QCluster) (t : ℕ) :
    (computeWorldPos mv vo c t).1.choices = c.choices := by
  unfold computeWorldPos
  by_cases h : (gatherRaysConfs mv vo c t).length < 2 <;> simp [h]

theorem computeWorldPos_score (mv : MultiView) (vo : List ℕ) (c : QCluster) (t : ℕ) :
    (computeWorldPos mv vo c t).1.score = c.score := by
  unfold computeWorldPos
  by_cases h : (gatherRaysConfs mv vo c t).length < 2 <;> simp [h]

theorem computeWorldPos_terms (mv : MultiView) (vo : List ℕ) (c : QCluster) (t : ℕ) :
    (computeWorldPos mv vo c t).1.terms = c.terms := by
  unfold computeWorldPos
  by_cases h : (gatherRaysConfs mv vo c t).length < 2 <;> simp [h]

theorem computeWorldPos_mainView (mv : MultiView) (vo : List ℕ) (c : QCluster) (t : ℕ) :
    (computeWorldPos mv vo c t).1.mainView = c.mainView := by
  unfold computeWorldPos
  by_cases h : (gatherRaysConfs mv vo c t).length < 2 <;> simp [h]

theorem computeWorldPos_snd (mv : MultiView) (vo : List ℕ) (c : QCluster) (t : ℕ) :
    (computeWorldPos mv vo c t).2 = true ↔ 2 ≤ (gatherRaysConfs mv vo c t).length := by
  unfold computeWorldPos
  by_cases h : (gatherRaysConfs mv vo c t).length < 2 <;> simp [h] <;> omega

theorem computeWorldPos_wp_other (mv : MultiView) (vo : List ℕ) (c : QCluster) (t u : ℕ)
    (h : u ≠ t) : (computeWorldPos mv vo c t).1.worldPos u = c.worldPos u := by
  unfold computeWorldPos
  by_cases hl : (gatherRaysConfs mv vo c t).length < 2 <;> simp [hl, h]

theorem computeWorldPos_wp_set (mv : MultiView) (vo : List ℕ) (c : QCluster) (t : ℕ)
    (h : (computeWorldPos mv vo c t).2 = true) :
    (computeWorldPos mv vo c t).1.worldPos t =
      multiRayIntersect ((gatherRaysConfs mv vo c t).map Prod.fst) := by
  unfold computeWorldPos
  by_cases hl : (gatherRaysConfs mv vo c t).length < 2
  · unfold computeWorldPos at h
    simp [hl] at h
  · simp [hl]

theorem computeWorldPos_false_eq (mv : MultiView) (vo : List ℕ) (c : QCluster) (t : ℕ)
    (h : (computeWorldPos mv vo c t).2 = false) :
    (computeWorldPos mv vo c t).1 = c := by
  unfold computeWorldPos at h ⊢
  by_cases hl : (gatherRaysConfs mv vo c t).length < 2
  · simp [hl]
  · simp [hl] at h

theorem epiScan_false_absorbing (mv : MultiView) (vo : List ℕ) (ch : ℕ → ℕ → Option ℕ)
    (jt : ℕ) (cur : Joint) (l : List ℕ) :
    ∀ init : Bool × ℚ, init.1 = false →
      (l.foldl (fun (er : Bool × ℚ) prevViewI =>
        if er.1 = false then er
        else
          match ch (vo.getD prevViewI 0) jt with
          | none => er
          | some prevChoice =>
              if mv.epi (jointAt mv (vo.getD prevViewI 0) jt prevChoice).ID cur.ID < EPS then
                (false, er.2)
              else (true, er.2 + mv.epi (jointAt mv (vo.getD prevViewI 0) jt prevChoice).ID cur.ID))
        init) = init := by
  induction l with
  | nil => intro init _; rfl
  | cons p rest ih =>
      intro init hinit
      rw [List.foldl_cons]
      have hstep : (if init.1 = false then init
          else
            match ch (vo.getD p 0) jt with
            | none => init
            | some prevChoice =>
                if mv.epi (jointAt mv (vo.getD p 0) jt prevChoice).ID cur.ID < EPS then
                  (false, init.2)
                else (true, init.2 + mv.epi (jointAt mv (vo.getD p 0) jt prevChoice).ID cur.ID)) = init := by
        simp [hinit]
      rw [hstep]
      exact ih init hinit

theorem epiScan_extract (mv : MultiView) (vo : List ℕ) (ch : ℕ → ℕ → Option ℕ)
    (jt : ℕ) (cur : Joint) (l : List ℕ) :
    ∀ init : Bool × ℚ,
      ((l.foldl (fun (er : Bool × ℚ) prevViewI =>
        if er.1 = false then er
        else
          match ch (vo.getD prevViewI 0) jt with
          | none => er
          | some prevChoice =>
              if mv.epi (jointAt mv (vo.getD prevViewI 0) jt prevChoice).ID cur.ID < EPS then
                (false, er.2)
              else (true, er.2 + mv.epi (jointAt mv (vo.getD prevViewI 0) jt prevChoice).ID cur.ID))
        init).1 = true) →
      ∀ p ∈ l, ∀ pc, ch (vo.getD p 0) jt = some pc →
        EPS ≤ mv.epi (jointAt mv (vo.getD p 0) jt pc).ID cur.ID := by
  induction l with
  | nil => intro init _ p hp; exact absurd hp (List.not_mem_nil p)
  | cons p0 rest ih =>
      intro init h p hp pc hpc
      rw [List.foldl_cons] at h
      rcases List.mem_cons.mp hp with rfl | hmem
      · by_cases hinit : init.1 = false
        · rw [epiScan_false_absorbing mv vo ch jt cur rest _ (by simp [hinit])] at h
          simp [hinit] at h
        · by_cases hlt : mv.epi (jointAt mv (vo.getD p 0) jt pc).ID cur.ID < EPS
          · have hstep : (if init.1 = false then init
                else
                  match ch (vo.getD p 0) jt with
                  | none => init
                  | some prevChoice =>
                      if mv.epi (jointAt mv (vo.getD p 0) jt prevChoice).ID cur.ID < EPS then
                        (false, init.2)
                      else (true, init.2 + mv.epi (jointAt mv (vo.getD p 0) jt prevChoice).ID cur.ID)) =
                (false, init.2) := by
              rw [if_neg hinit]
              simp only [hpc]
              rw [if_pos hlt]
            rw [hstep, epiScan_false_absorbing mv vo ch jt cur rest _ rfl] at h
            simp at h
          · exact le_of_not_lt hlt
      · exact ih _ h p hmem pc hpc

theorem jo_getD_mem (jo : List ℕ) (jI : ℕ) (h : jI < jo.length) : jo.getD jI 0 ∈ jo := by
  rw [List.getD_eq_getElem jo 0 h]
  exact List.getElem_mem h

/-- The parent type of a pass position differs from the position's own type
(it appears earlier in the pass). -/
theorem parent_ne_self (env : SearchEnv) (hjo : env.jo.Nodup)
    (hpar : ∀ jI, 1 ≤ jI → jI < env.jo.length →
        ∃ k, k < jI ∧ env.jo.getD k 0 = parentOf (env.jo.getD jI 0))
    (jI : ℕ) (h1 : 1 ≤ jI) (h2 : jI < env.jo.length) :
    parentOf (env.jo.getD jI 0) ≠ env.jo.getD jI 0 := by
  obtain ⟨k, hk, hkeq⟩ := hpar jI h1 h2
  rw [← hkeq]
  exact nodup_getD_ne env.jo hjo k jI (by omega) h2 (by omega)

/-- A pointwise update of a choices table, the functional form of
QCluster::setJoint. -/
def assignCh (ch : ℕ → ℕ → Option ℕ) (view jointType : ℕ) (choice : Option ℕ) :
    ℕ → ℕ → Option ℕ :=
  fun v t => if v = view ∧ t = jointType then choice else ch v t

theorem assignCh_apply (ch : ℕ → ℕ → Option ℕ) (view jointType : ℕ)
    (choice : Option ℕ) (v t : ℕ) :
    assignCh ch view jointType choice v t =
      if v = view ∧ t = jointType then choice else ch v t := rfl

theorem setJoint_choices_eq (c : QCluster) (view jointType : ℕ) (choice : Option ℕ) :
    (c.setJoint view jointType choice).choices = assignCh c.choices view jointType choice := rfl

/-- Assigning the current joint type at the current view position preserves
the choices invariant, advancing the view position, provided the PAF gate and
the epipolar scan facts hold for the assigned candidate. -/
theorem ChInv_assign (env : SearchEnv)
    (hvo : env.vo.Perm (List.range 5)) (hjo : env.jo.Nodup)
    (hpar : ∀ jI, 1 ≤ jI → jI < env.jo.length →
        ∃ k, k < jI ∧ env.jo.getD k 0 = parentOf (env.jo.getD jI 0))
    (viewI jointI : ℕ) (hv : viewI < 5) (hj : jointI < env.jo.length)
    (ch : ℕ → ℕ → Option ℕ) (inv : ChInv env viewI jointI ch) (choice : ℕ)
    (hpaf : jointI ≠ 0 → ∃ pc,
        ch (env.vo.getD viewI 0) (parentOf (env.jo.getD jointI 0)) = some pc ∧
        EPS ≤ (env.mv.views.getD (env.vo.getD viewI 0) default).paf
          (jointAt env.mv (env.vo.getD viewI 0) (parentOf (env.jo.getD jointI 0)) pc).ID
          (jointAt env.mv (env.vo.getD viewI 0) (env.jo.getD jointI 0) choice).ID)
    (hepi : ∀ prevI, prevI < viewI → ∀ pc,
        ch (env.vo.getD prevI 0) (env.jo.getD jointI 0) = some pc →
        EPS ≤ env.mv.epi
          (jointAt env.mv (env.vo.getD prevI 0) (env.jo.getD jointI 0) pc).ID
          (jointAt env.mv (env.vo.getD viewI 0) (env.jo.getD jointI 0) choice).ID) :
    ChInv env (viewI + 1) jointI
      (assignCh ch (env.vo.getD viewI 0) (env.jo.getD jointI 0) (some choice)) := by
  constructor
  · intro jI hlt hlen v
    rw [assignCh_apply]
    have hne : env.jo.getD jI 0 ≠ env.jo.getD jointI 0 :=
      nodup_getD_ne env.jo hjo jI jointI hlen hj (by omega)
    rw [if_neg (by intro h; exact hne h.2)]
    exact inv.laterNone jI hlt hlen v
  · intro _ vI hge hlt
    rw [assignCh_apply]
    have hne : env.vo.getD vI 0 ≠ env.vo.getD viewI 0 := by
      intro h
      have := perm_range5_getD_inj env.vo hvo vI viewI hlt hv h
      omega
    rw [if_neg (by intro h; exact hne h.1)]
    exact inv.curNone hj vI (by omega) hlt
  · intro t ht v
    rw [assignCh_apply]
    have hne : t ≠ env.jo.getD jointI 0 := by
      intro h
      exact ht (h ▸ jo_getD_mem env.jo jointI hj)
    rw [if_neg (by intro h; exact hne h.2)]
    exact inv.outNone t ht v
  · constructor
    · intro jI h1 hlen vI hvI c hc
      rw [assignCh_apply] at hc
      by_cases hnew : env.vo.getD vI 0 = env.vo.getD viewI 0 ∧
          env.jo.getD jI 0 = env.jo.getD jointI 0
      · have hjIeq : jI = jointI := by
          by_contra hne
          exact nodup_getD_ne env.jo hjo jI jointI hlen hj hne hnew.2
        have hvIeq : vI = viewI := perm_range5_getD_inj env.vo hvo vI viewI hvI hv hnew.1
        rw [if_pos hnew] at hc
        cases hc
        subst hjIeq
        subst hvIeq
        obtain ⟨pc, hpc, hple⟩ := hpaf (by omega)
        have hptne : parentOf (env.jo.getD jI 0) ≠ env.jo.getD jI 0 :=
          parent_ne_self env hjo hpar jI h1 hlen
        refine ⟨pc, ?_, hple⟩
        rw [assignCh_apply, if_neg (by intro h; exact hptne h.2)]
        exact hpc
      · rw [if_neg hnew] at hc
        obtain ⟨pc, hpc, hple⟩ := (inv.gates).1 jI h1 hlen vI hvI c hc
        refine ⟨pc, ?_, hple⟩
        rw [assignCh_apply]
        have hpne : ¬(env.vo.getD vI 0 = env.vo.getD viewI 0 ∧
            parentOf (env.jo.getD jI 0) = env.jo.getD jointI 0) := by
          intro hcon
          have hvIeq : vI = viewI := perm_range5_getD_inj env.vo hvo vI viewI hvI hv hcon.1
          rw [hcon.1, hcon.2] at hpc
          rw [inv.curNone hj viewI le_rfl hv] at hpc
          cases hpc
        rw [if_neg hpne]
        exact hpc
    · intro jI hlen vI1 vI2 h12 h2 c1 c2 hc1 hc2
      rw [assignCh_apply] at hc1 hc2
      have hv1lt : vI1 < 5 := by omega
      by_cases hnew2 : env.vo.getD vI2 0 = env.vo.getD viewI 0 ∧
          env.jo.getD jI 0 = env.jo.getD jointI 0
      · have hvIeq : vI2 = viewI := perm_range5_getD_inj env.vo hvo vI2 viewI h2 hv hnew2.1
        have hjIeq : jI = jointI := by
          by_contra hne
          exact nodup_getD_ne env.jo hjo jI jointI hlen hj hne hnew2.2
        have hnew1 : ¬(env.vo.getD vI1 0 = env.vo.getD viewI 0 ∧
            env.jo.getD jI 0 = env.jo.getD jointI 0) := by
          intro hcon
          have := perm_range5_getD_inj env.vo hvo vI1 viewI hv1lt hv hcon.1
          omega
        rw [if_neg hnew1] at hc1
        rw [if_pos hnew2] at hc2
        cases hc2
        subst hjIeq
        have he := hepi vI1 (by omega) c1 hc1
        rw [← hnew2.1] at he
        rw [hvIeq, ← hnew2.1]
        exact he
      · rw [if_neg hnew2] at hc2
        by_cases hnew1 : env.vo.getD vI1 0 = env.vo.getD viewI 0 ∧
            env.jo.getD jI 0 = env.jo.getD jointI 0
        · have hvIeq : vI1 = viewI := perm_range5_getD_inj env.vo hvo vI1 viewI hv1lt hv hnew1.1
          have hjIeq : jI = jointI := by
            by_contra hne
            exact nodup_getD_ne env.jo hjo jI jointI hlen hj hne hnew1.2
          subst hjIeq
          rw [inv.curNone hj vI2 (by omega) h2] at hc2
          cases hc2
        · rw [if_neg hnew1] at hc1
          exact (inv.gates).2 jI hlen vI1 vI2 h12 h2 c1 c2 hc1 hc2

/-- Clearing the main-view entry of the current joint type (the rollback of
the bone-length and too-few-rays gates) preserves the choices invariant. -/
theorem ChInv_clear_main (env : SearchEnv)
    (hvo : env.vo.Perm (List.range 5)) (hjo : env.jo.Nodup)
    (hpar : ∀ jI, 1 ≤ jI → jI < env.jo.length →
        ∃ k, k < jI ∧ env.jo.getD k 0 = parentOf (env.jo.getD jI 0))
    (viewI jointI : ℕ) (hj : jointI < env.jo.length)
    (ch : ℕ → ℕ → Option ℕ) (inv : ChInv env viewI jointI ch) :
    ChInv env viewI jointI
      (assignCh ch (env.vo.getD 0 0) (env.jo.getD jointI 0) none) := by
  constructor
  · intro jI hlt hlen v
    rw [assignCh_apply]
    by_cases h : v = env.vo.getD 0 0 ∧ env.jo.getD jI 0 = env.jo.getD jointI 0
    · rw [if_pos h]
    · rw [if_neg h]
      exact inv.laterNone jI hlt hlen v
  · intro hl vI hge hlt
    rw [assignCh_apply]
    by_cases h : env.vo.getD vI 0 = env.vo.getD 0 0 ∧
        env.jo.getD jointI 0 = env.jo.getD jointI 0
    · rw [if_pos h]
    · rw [if_neg h]
      exact inv.curNone hl vI hge hlt
  · intro t ht v
    rw [assignCh_apply]
    by_cases h : v = env.vo.getD 0 0 ∧ t = env.jo.getD jointI 0
    · rw [if_pos h]
    · rw [if_neg h]
      exact inv.outNone t ht v
  · constructor
    · intro jI h1 hlen vI hvI c hc
      rw [assignCh_apply] at hc
      by_cases hcond : env.vo.getD vI 0 = env.vo.getD 0 0 ∧
          env.jo.getD jI 0 = env.jo.getD jointI 0
      · rw [if_pos hcond] at hc
        cases hc
      · rw [if_neg hcond] at hc
        obtain ⟨pc, hpc, hple⟩ := (inv.gates).1 jI h1 hlen vI hvI c hc
        refine ⟨pc, ?_, hple⟩
        rw [assignCh_apply]
        have hpne : ¬(env.vo.getD vI 0 = env.vo.getD 0 0 ∧
            parentOf (env.jo.getD jI 0) = env.jo.getD jointI 0) := by
          intro hcon
          obtain ⟨k, hk, hkeq⟩ := hpar jI h1 hlen
          have hkj : k = jointI := by
            by_contra hne
            exact (nodup_getD_ne env.jo hjo k jointI (by omega) hj hne) (hkeq.trans hcon.2)
          have hlater := inv.laterNone jI (by omega) hlen (env.vo.getD vI 0)
          rw [hlater] at hc
          cases hc
        rw [if_neg hpne]
        exact hpc
    · intro jI hlen vI1 vI2 h12 h2 c1 c2 hc1 hc2
      rw [assignCh_apply] at hc1 hc2
      by_cases hcond1 : env.vo.getD vI1 0 = env.vo.getD 0 0 ∧
          env.jo.getD jI 0 = env.jo.getD jointI 0
      · rw [if_pos hcond1] at hc1
        cases hc1
      · rw [if_neg hcond1] at hc1
        by_cases hcond2 : env.vo.getD vI2 0 = env.vo.getD 0 0 ∧
            env.jo.getD jI 0 = env.jo.getD jointI 0
        · rw [if_pos hcond2] at hc2
          cases hc2
        · rw [if_neg hcond2] at hc2
          exact (inv.gates).2 jI hlen vI1 vI2 h12 h2 c1 c2 hc1 hc2

/-- Moving to the next joint type resets the view position. -/
theorem ChInv_next (env : SearchEnv) (viewI jointI : ℕ)
    (ch : ℕ → ℕ → Option ℕ) (inv : ChInv env viewI jointI ch) :
    ChInv env 0 (jointI + 1) ch := by
  constructor
  · intro jI hlt hlen v
    exact inv.laterNone jI (by omega) hlen v
  · intro hl vI _ hlt
    exact inv.laterNone (jointI + 1) (by omega) hl (env.vo.getD vI 0)
  · exact inv.outNone
  · exact inv.gates

/-- Widening the unvisited-positions window (used when skipping to the next
view). -/
theorem ChInv_weaken (env : SearchEnv) (viewI jointI : ℕ)
    (ch : ℕ → ℕ → Option ℕ) (inv : ChInv env viewI jointI ch) :
    ChInv env (viewI + 1) jointI ch := by
  constructor
  · exact inv.laterNone
  · intro hl vI hge hlt
    exact inv.curNone hl vI (by omega) hlt
  · exact inv.outNone
  · exact inv.gates

theorem DoneOK_congr (env : SearchEnv) (jointI : ℕ) (ch1 ch2 : ℕ → ℕ → Option ℕ)
    (wp1 wp2 : ℕ → Vec3)
    (hch : ∀ v jI, jI < jointI → jI < env.jo.length →
      ch2 v (env.jo.getD jI 0) = ch1 v (env.jo.getD jI 0))
    (hwp : ∀ jI, jI < jointI → jI < env.jo.length →
      wp2 (env.jo.getD jI 0) = wp1 (env.jo.getD jI 0))
    (h : DoneOK env jointI ch1 wp1) : DoneOK env jointI ch2 wp2 := by
  intro jI h1 h2 hs
  have hg : canonGather env.mv ch2 (env.jo.getD jI 0) =
      canonGather env.mv ch1 (env.jo.getD jI 0) :=
    canonGather_congr env.mv ch2 ch1 (env.jo.getD jI 0) (fun v => hch v jI h1 h2)
  rw [hch (env.vo.getD 0 0) jI h1 h2] at hs
  rw [hg, hwp jI h1 h2]
  exact h jI h1 h2 hs

theorem assignCh_assignCh (ch : ℕ → ℕ → Option ℕ) (v t : ℕ) (a b : Option ℕ) :
    assignCh (assignCh ch v t a) v t b = assignCh ch v t b := by
  funext x y
  rw [assignCh_apply, assignCh_apply, assignCh_apply]
  by_cases h : x = v ∧ y = t
  · rw [if_pos h, if_pos h]
  · rw [if_neg h, if_neg h, if_neg h]

theorem assignCh_self (ch : ℕ → ℕ → Option ℕ) (v t : ℕ) :
    assignCh ch v t (ch v t) = ch := by
  funext x y
  rw [assignCh_apply]
  by_cases h : x = v ∧ y = t
  · rw [if_pos h, h.1, h.2]
  · rw [if_neg h]

theorem assignCh_ne_type (ch : ℕ → ℕ → Option ℕ) (v t : ℕ) (a : Option ℕ) (x y : ℕ)
    (h : y ≠ t) : assignCh ch v t a x y = ch x y := by
  rw [assignCh_apply, if_neg (by intro hc; exact h hc.2)]

/-- What the shift-to-next-joint block guarantees, seen from its input state:
choices, main view restored; world positions of joint types before the current
position untouched; history consistent; new preserved clusters good. -/
structure ShiftOut (env : SearchEnv) (jointI : ℕ) (st1 st2 : SearchState) : Prop where
  choicesEq : st2.cluster.choices = st1.cluster.choices
  mainEq : st2.cluster.mainView = st1.cluster.mainView
  wpEq : ∀ t, (∀ jI, jointI ≤ jI → jI < env.jo.length → env.jo.getD jI 0 ≠ t) →
    st2.cluster.worldPos t = st1.cluster.worldPos t
  histOK : ∀ j, st2.histScore j = (st2.histTerms j).sum
  presGood : ∀ c ∈ st2.preserved, c ∈ st1.preserved ∨ preservedGood env c


theorem boneGate_cases (env : SearchEnv) (jointI : ℕ) (hs : ℕ → ℚ) (ht : ℕ → List ℚ)
    (cl2 : QCluster) :
    boneGate env jointI hs ht cl2 = cl2 ∨
    boneGate env jointI hs ht cl2 =
      { (cl2.setJoint (env.vo.getD 0 0) (env.jo.getD jointI 0) none) with
        score := hs (jointI - 1), terms := ht (jointI - 1) } := by
  unfold boneGate
  by_cases hb : jointI ≠ 0 ∧
      boneExceeded (cl2.worldPos (parentOf (env.jo.getD jointI 0)))
        (cl2.worldPos (env.jo.getD jointI 0))
        (getMaxBoneLength env.cfg (env.jo.getD jointI 0) (parentOf (env.jo.getD jointI 0)))
  · rw [if_pos hb]; right; rfl
  · rw [if_neg hb]; left; rfl

theorem skipGate_cases (env : SearchEnv) (jointI : ℕ) (hs : ℕ → ℚ) (ht : ℕ → List ℚ)
    (wp : QCluster × Bool) :
    (wp.2 = false ∧ skipGate env jointI hs ht wp =
      { ((wp.1).setJoint (env.vo.getD 0 0) (env.jo.getD jointI 0) none) with
        score := if jointI = 0 then 0 else hs (jointI - 1),
        terms := if jointI = 0 then [] else ht (jointI - 1) }) ∨
    (wp.2 = true ∧ skipGate env jointI hs ht wp = boneGate env jointI hs ht wp.1) := by
  unfold skipGate
  cases hb : wp.2
  · left
    refine ⟨rfl, ?_⟩
    rw [if_pos rfl]
  · right
    refine ⟨rfl, ?_⟩
    rw [if_neg (fun h => by cases h)]

/-- Soundness of the common shift-to-next-joint tail: given the gate-processed
cluster cl3 (whose choices are those of st1, possibly with the current
joint type's main-view entry cleared, and which satisfies the invariants for
the next position), the tail restores choices and main view, touches no world
position of an earlier joint type, keeps the history consistent, and preserves
only good clusters. -/
theorem shiftCore_sound (env : SearchEnv)
    (recurse : ℕ → ℕ → SearchState → SearchState)
    (hrec : ∀ viewI jointI st, SearchInv env viewI jointI st → viewI < 5 →
        jointI ≤ env.jo.length → SearchOut env jointI st (recurse viewI jointI st))
    (jointI : ℕ) (hj : jointI < env.jo.length)
    (st1 : SearchState) (cl3 : QCluster)
    (hmain1 : st1.cluster.mainView = env.vo.getD 0 0)
    (hhist1 : ∀ j, st1.histScore j = (st1.histTerms j).sum)
    (hch : cl3.choices = st1.cluster.choices ∨
        cl3.choices = assignCh st1.cluster.choices (env.vo.getD 0 0) (env.jo.getD jointI 0) none)
    (hmain3 : cl3.mainView = st1.cluster.mainView)
    (hst3 : cl3.score = cl3.terms.sum)
    (hwp3 : ∀ u, u ≠ env.jo.getD jointI 0 → cl3.worldPos u = st1.cluster.worldPos u)
    (hchinv : ChInv env 0 (jointI + 1) cl3.choices)
    (hdone : DoneOK env (jointI + 1) cl3.choices cl3.worldPos) :
    ShiftOut env jointI st1 (shiftCore env recurse jointI st1 cl3) := by
  unfold shiftCore
  lift_lets
  extract_lets jointType view0Choice st2 st3
  have hjt : jointType = env.jo.getD jointI 0 := rfl
  have hv0c : view0Choice = st1.cluster.choices (env.vo.getD 0 0) jointType := rfl
  have hst2cl : st2.cluster = cl3 := rfl
  have hst2hS : st2.histScore = fun j => if j = jointI then cl3.score else st1.histScore j := rfl
  have hst2hT : st2.histTerms = fun j => if j = jointI then cl3.terms else st1.histTerms j := rfl
  have hst2pres : st2.preserved = st1.preserved := rfl
  have inv2 : SearchInv env 0 (jointI + 1) st2 := by
    constructor
    · rw [hst2cl, hmain3, hmain1]
    · rw [hst2cl]; exact hst3
    · intro j
      simp only [hst2hS, hst2hT]
      by_cases hjeq : j = jointI
      · rw [if_pos hjeq, if_pos hjeq]; exact hst3
      · rw [if_neg hjeq, if_neg hjeq]; exact hhist1 j
    · rw [hst2cl]; exact hchinv
    · rw [hst2cl]; exact hdone
  have hout3 : SearchOut env (jointI + 1) st2 st3 :=
    hrec 0 (jointI + 1) st2 inv2 (by omega) (by omega)
  constructor
  · show (st3.cluster.setJoint (env.vo.getD 0 0) jointType view0Choice).choices =
      st1.cluster.choices
    rw [setJoint_choices_eq, hout3.choicesEq, hst2cl]
    rcases hch with hch | hch
    · rw [hch, hv0c, hjt]
      exact assignCh_self st1.cluster.choices (env.vo.getD 0 0) (env.jo.getD jointI 0)
    · rw [hch, hv0c, hjt, assignCh_assignCh]
      exact assignCh_self st1.cluster.choices (env.vo.getD 0 0) (env.jo.getD jointI 0)
  · show (st3.cluster.setJoint (env.vo.getD 0 0) jointType view0Choice).mainView =
      st1.cluster.mainView
    rw [setJoint_mainView, hout3.mainEq, hst2cl, hmain3]
  · intro t htp
    show (st3.cluster.setJoint (env.vo.getD 0 0) jointType view0Choice).worldPos t =
      st1.cluster.worldPos t
    rw [setJoint_worldPos]
    have h1 : st3.cluster.worldPos t = st2.cluster.worldPos t := by
      apply hout3.wpEq
      intro jI hge hlt
      exact htp jI (by omega) hlt
    rw [h1, hst2cl]
    exact hwp3 t (fun he => htp jointI le_rfl hj he.symm)
  · exact hout3.histOK
  · intro c hc
    rcases hout3.presGood c hc with hmem | hgood
    · left; rw [hst2pres] at hmem; exact hmem
    · right; exact hgood

theorem nextJointShift_sound (env : SearchEnv)
    (h5 : env.mv.views.length = 5)
    (hvo : env.vo.Perm (List.range 5)) (hjo : env.jo.Nodup)
    (hpar : ∀ jI, 1 ≤ jI → jI < env.jo.length →
        ∃ k, k < jI ∧ env.jo.getD k 0 = parentOf (env.jo.getD jI 0))
    (recurse : ℕ → ℕ → SearchState → SearchState)
    (hrec : ∀ viewI jointI st, SearchInv env viewI jointI st → viewI < 5 →
        jointI ≤ env.jo.length → SearchOut env jointI st (recurse viewI jointI st))
    (jointI : ℕ) (hj : jointI < env.jo.length)
    (st1 : SearchState) (inv1 : SearchInv env 5 jointI st1)
    (h2rays : (st1.cluster.choices (env.vo.getD 0 0) (env.jo.getD jointI 0)).isSome →
        2 ≤ (canonGather env.mv st1.cluster.choices (env.jo.getD jointI 0)).length) :
    ShiftOut env jointI st1 (nextJointShift env recurse jointI st1) := by
  unfold nextJointShift
  have hcl2 := computeWorldPos_choices env.mv env.vo st1.cluster (env.jo.getD jointI 0)
  have hcl2s := computeWorldPos_score env.mv env.vo st1.cluster (env.jo.getD jointI 0)
  have hcl2t := computeWorldPos_terms env.mv env.vo st1.cluster (env.jo.getD jointI 0)
  have hcl2m := computeWorldPos_mainView env.mv env.vo st1.cluster (env.jo.getD jointI 0)
  have hcl2w := computeWorldPos_wp_other env.mv env.vo st1.cluster (env.jo.getD jointI 0)
  -- the triangulated-position fact for the new position, when the main view is assigned
  have hnewdone :
      ((computeWorldPos env.mv env.vo st1.cluster (env.jo.getD jointI 0)).1.choices
          (env.vo.getD 0 0) (env.jo.getD jointI 0)).isSome →
      2 ≤ (canonGather env.mv
          (computeWorldPos env.mv env.vo st1.cluster (env.jo.getD jointI 0)).1.choices
          (env.jo.getD jointI 0)).length ∧
      (computeWorldPos env.mv env.vo st1.cluster (env.jo.getD jointI 0)).1.worldPos
          (env.jo.getD jointI 0) =
        multiRayIntersect ((canonGather env.mv
          (computeWorldPos env.mv env.vo st1.cluster (env.jo.getD jointI 0)).1.choices
          (env.jo.getD jointI 0)).map Prod.fst) := by
    rw [hcl2]
    intro hs
    have hlen := h2rays hs
    have hperm := gatherRaysConfs_perm_canon env.mv env.vo st1.cluster
      (env.jo.getD jointI 0) h5 hvo
    have hglen : 2 ≤ (gatherRaysConfs env.mv env.vo st1.cluster (env.jo.getD jointI 0)).length := by
      rw [hperm.length_eq]
      exact hlen
    have hsnd : (computeWorldPos env.mv env.vo st1.cluster (env.jo.getD jointI 0)).2 = true :=
      (computeWorldPos_snd env.mv env.vo st1.cluster (env.jo.getD jointI 0)).mpr hglen
    refine ⟨hlen, ?_⟩
    rw [computeWorldPos_wp_set env.mv env.vo st1.cluster (env.jo.getD jointI 0) hsnd]
    exact multiRayIntersect_perm _ _ (hperm.map Prod.fst)
  rcases boneGate_cases env jointI st1.histScore st1.histTerms
      (computeWorldPos env.mv env.vo st1.cluster (env.jo.getD jointI 0)).1 with hbg | hbg
  -- no bone violation: the gate is the identity
  · apply shiftCore_sound env recurse hrec jointI hj st1 _ inv1.mainViewEq inv1.histOK
    · left
      rw [hbg, hcl2]
    · rw [hbg, hcl2m]
    · rw [hbg, hcl2s, hcl2t]
      exact inv1.scoreTerms
    · intro u hu
      rw [hbg]
      exact hcl2w u hu
    · rw [hbg, hcl2]
      exact ChInv_next env 5 jointI st1.cluster.choices inv1.chInv
    · rw [hbg]
      intro jI hlt hlen hs
      by_cases hje : jI = jointI
      · subst hje
        rw [hcl2] at hnewdone hs ⊢
        exact hnewdone hs
      · have hjlt : jI < jointI := by omega
        rw [hcl2] at hs ⊢
        have hwpe : (computeWorldPos env.mv env.vo st1.cluster (env.jo.getD jointI 0)).1.worldPos
            (env.jo.getD jI 0) = st1.cluster.worldPos (env.jo.getD jI 0) :=
          hcl2w _ (nodup_getD_ne env.jo hjo jI jointI hlen hj hje)
        rw [hwpe]
        exact inv1.doneOK jI hjlt hlen hs
  -- bone violation: main-view choice cleared, score rolled back
  · apply shiftCore_sound env recurse hrec jointI hj st1 _ inv1.mainViewEq inv1.histOK
    · right
      rw [hbg]
      show ((computeWorldPos env.mv env.vo st1.cluster (env.jo.getD jointI 0)).1.setJoint
          (env.vo.getD 0 0) (env.jo.getD jointI 0) none).choices = _
      rw [setJoint_choices_eq, hcl2]
    · rw [hbg]
      show ((computeWorldPos env.mv env.vo st1.cluster (env.jo.getD jointI 0)).1.setJoint
          (env.vo.getD 0 0) (env.jo.getD jointI 0) none).mainView = _
      rw [setJoint_mainView, hcl2m]
    · rw [hbg]
      show st1.histScore (jointI - 1) = (st1.histTerms (jointI - 1)).sum
      exact inv1.histOK (jointI - 1)
    · intro u hu
      rw [hbg]
      show ((computeWorldPos env.mv env.vo st1.cluster (env.jo.getD jointI 0)).1.setJoint
          (env.vo.getD 0 0) (env.jo.getD jointI 0) none).worldPos u = _
      rw [setJoint_worldPos]
      exact hcl2w u hu
    · rw [hbg]
      show ChInv env 0 (jointI + 1)
        ((computeWorldPos env.mv env.vo st1.cluster (env.jo.getD jointI 0)).1.setJoint
          (env.vo.getD 0 0) (env.jo.getD jointI 0) none).choices
      rw [setJoint_choices_eq, hcl2]
      exact ChInv_next env 5 jointI _
        (ChInv_clear_main env hvo hjo hpar 5 jointI hj st1.cluster.choices inv1.chInv)
    · rw [hbg]
      intro jI hlt hlen hs
      by_cases hje : jI = jointI
      · subst hje
        rw [setJoint_choices_eq, hcl2] at hs
        rw [assignCh_apply, if_pos ⟨rfl, rfl⟩] at hs
        cases hs
      · have hjlt : jI < jointI := by omega
        have hne := nodup_getD_ne env.jo hjo jI jointI hlen hj hje
        rw [setJoint_choices_eq, hcl2] at hs ⊢
        rw [assignCh_ne_type _ _ _ _ _ _ hne] at hs
        have hcge : canonGather env.mv
            (assignCh st1.cluster.choices (env.vo.getD 0 0) (env.jo.getD jointI 0) none)
            (env.jo.getD jI 0) = canonGather env.mv st1.cluster.choices (env.jo.getD jI 0) :=
          canonGather_congr _ _ _ _ (fun v => assignCh_ne_type _ _ _ _ _ _ hne)
        rw [hcge]
        show 2 ≤ _ ∧ ((computeWorldPos env.mv env.vo st1.cluster (env.jo.getD jointI 0)).1.setJoint
            (env.vo.getD 0 0) (env.jo.getD jointI 0) none).worldPos (env.jo.getD jI 0) = _
        rw [setJoint_worldPos]
        have hwpe : (computeWorldPos env.mv env.vo st1.cluster (env.jo.getD jointI 0)).1.worldPos
            (env.jo.getD jI 0) = st1.cluster.worldPos (env.jo.getD jI 0) := hcl2w _ hne
        rw [hwpe]
        exact inv1.doneOK jI hjlt hlen hs

theorem assignCh_none_of_none (ch : ℕ → ℕ → Option ℕ) (v t : ℕ) (h : ch v t = none) :
    assignCh ch v t none = ch := by
  rw [← h]
  exact assignCh_self ch v t

theorem candAccept_sound (env : SearchEnv)
    (h5 : env.mv.views.length = 5)
    (hvo : env.vo.Perm (List.range 5)) (hjo : env.jo.Nodup)
    (hpar : ∀ jI, 1 ≤ jI → jI < env.jo.length →
        ∃ k, k < jI ∧ env.jo.getD k 0 = parentOf (env.jo.getD jI 0))
    (recurse : ℕ → ℕ → SearchState → SearchState)
    (hrec : ∀ viewI jointI st, SearchInv env viewI jointI st → viewI < 5 →
        jointI ≤ env.jo.length → SearchOut env jointI st (recurse viewI jointI st))
    (viewI jointI : ℕ) (hv : viewI < 5) (hj : jointI < env.jo.length)
    (st : SearchState) (choice : ℕ) (scorePAF scoreEpi : ℚ)
    (inv : SearchInv env viewI jointI st)
    (hpaf : jointI ≠ 0 → ∃ pc,
        st.cluster.choices (env.vo.getD viewI 0) (parentOf (env.jo.getD jointI 0)) = some pc ∧
        EPS ≤ (env.mv.views.getD (env.vo.getD viewI 0) default).paf
          (jointAt env.mv (env.vo.getD viewI 0) (parentOf (env.jo.getD jointI 0)) pc).ID
          (jointAt env.mv (env.vo.getD viewI 0) (env.jo.getD jointI 0) choice).ID)
    (hepi : ∀ prevI, prevI < viewI → ∀ pc,
        st.cluster.choices (env.vo.getD prevI 0) (env.jo.getD jointI 0) = some pc →
        EPS ≤ env.mv.epi
          (jointAt env.mv (env.vo.getD prevI 0) (env.jo.getD jointI 0) pc).ID
          (jointAt env.mv (env.vo.getD viewI 0) (env.jo.getD jointI 0) choice).ID) :
    SearchOut env jointI st
      (candAccept env recurse viewI jointI st choice scorePAF scoreEpi) := by
  unfold candAccept
  lift_lets
  extract_lets viewNum view jointType originalScore originalTerms cl0 cl1 st1 stRec clEnd
  have hvn : viewNum = env.mv.views.length := rfl
  have hview : view = env.vo.getD viewI 0 := rfl
  have hjt : jointType = env.jo.getD jointI 0 := rfl
  have hoS : originalScore = st.cluster.score := rfl
  have hoT : originalTerms = st.cluster.terms := rfl
  have hcl1ch : cl1.choices =
      assignCh st.cluster.choices (env.vo.getD viewI 0) (env.jo.getD jointI 0) (some choice) := by
    show cl0.choices = _
    rw [setJoint_choices_eq]
  have hcl1s : cl1.score = st.cluster.score + (scorePAF + scoreEpi) := rfl
  have hcl1t : cl1.terms = (scorePAF + scoreEpi) :: st.cluster.terms := rfl
  have hcl1m : cl1.mainView = st.cluster.mainView := rfl
  have hcl1w : cl1.worldPos = st.cluster.worldPos := rfl
  have hst1cl : st1.cluster = cl1 := rfl
  have hst1hS : st1.histScore = st.histScore := rfl
  have hst1hT : st1.histTerms = st.histTerms := rfl
  have hst1p : st1.preserved = st.preserved := rfl
  have hcurnone : st.cluster.choices (env.vo.getD viewI 0) (env.jo.getD jointI 0) = none :=
    inv.chInv.curNone hj viewI le_rfl hv
  have inv1 : SearchInv env (viewI + 1) jointI st1 := by
    constructor
    · rw [hst1cl, hcl1m]; exact inv.mainViewEq
    · rw [hst1cl, hcl1s, hcl1t, List.sum_cons, inv.scoreTerms]
      ring
    · rw [hst1hS, hst1hT]; exact inv.histOK
    · rw [hst1cl, hcl1ch]
      exact ChInv_assign env hvo hjo hpar viewI jointI hv hj st.cluster.choices inv.chInv
        choice hpaf hepi
    · rw [hst1cl]
      apply DoneOK_congr env jointI st.cluster.choices cl1.choices
          st.cluster.worldPos cl1.worldPos
      · intro v jI h1 h2
        rw [hcl1ch]
        exact assignCh_ne_type _ _ _ _ _ _
          (nodup_getD_ne env.jo hjo jI jointI h2 hj (by omega))
      · intro jI h1 h2
        rw [hcl1w]
      · intro jI h1 h2 hs
        exact inv.doneOK jI h1 h2 hs
  have hrestore :
      ∀ stR : SearchState, stR.cluster.choices = st1.cluster.choices →
        assignCh stR.cluster.choices view jointType none = st.cluster.choices := by
    intro stR hR
    rw [hR, hst1cl, hcl1ch, hview, hjt, assignCh_assignCh]
    exact assignCh_none_of_none _ _ _ hcurnone
  have houtRec : SearchOut env jointI st1 stRec ∨ ShiftOut env jointI st1 stRec := by
    show SearchOut env jointI st1
        (if viewI = viewNum - 1 then nextJointShift env recurse jointI st1
          else recurse (viewI + 1) jointI st1) ∨
      ShiftOut env jointI st1
        (if viewI = viewNum - 1 then nextJointShift env recurse jointI st1
          else recurse (viewI + 1) jointI st1)
    by_cases hlast : viewI = viewNum - 1
    · rw [if_pos hlast]
      right
      have hvI4 : viewI = 4 := by rw [hvn, h5] at hlast; omega
      apply nextJointShift_sound env h5 hvo hjo hpar recurse hrec jointI hj st1
      · have h45 : viewI + 1 = 5 := by omega
        exact h45 ▸ inv1
      · intro hs
        rw [hst1cl, hcl1ch] at hs ⊢
        have hne04 : env.vo.getD 0 0 ≠ env.vo.getD viewI 0 := by
          intro h
          have := perm_range5_getD_inj env.vo hvo 0 viewI (by omega) hv h
          omega
        apply canonGather_two_le env.mv _ _ (env.vo.getD 0 0) (env.vo.getD viewI 0)
          (perm_range5_getD_lt env.vo hvo 0 (by omega))
          (perm_range5_getD_lt env.vo hvo viewI hv) hne04
        · exact hs
        · rw [assignCh_apply, if_pos ⟨rfl, rfl⟩]
          rfl
    · rw [if_neg hlast]
      left
      apply hrec (viewI + 1) jointI st1 inv1 _ (by omega)
      rw [hvn, h5] at hlast
      omega
  have hwp1 : st1.cluster.worldPos = st.cluster.worldPos := by rw [hst1cl, hcl1w]
  have hRch : stRec.cluster.choices = st1.cluster.choices := by
    rcases houtRec with h | h
    · exact h.choicesEq
    · exact h.choicesEq
  have hRmain : stRec.cluster.mainView = st1.cluster.mainView := by
    rcases houtRec with h | h
    · exact h.mainEq
    · exact h.mainEq
  have hRwp : ∀ t, (∀ jI, jointI ≤ jI → jI < env.jo.length → env.jo.getD jI 0 ≠ t) →
      stRec.cluster.worldPos t = st1.cluster.worldPos t := by
    rcases houtRec with h | h
    · exact h.wpEq
    · exact h.wpEq
  have hRhist : ∀ j, stRec.histScore j = (stRec.histTerms j).sum := by
    rcases houtRec with h | h
    · exact h.histOK
    · exact h.histOK
  have hRpres : ∀ c ∈ stRec.preserved, c ∈ st1.preserved ∨ preservedGood env c := by
    rcases houtRec with h | h
    · exact h.presGood
    · exact h.presGood
  constructor
  · show (stRec.cluster.setJoint view jointType none).choices = st.cluster.choices
    rw [setJoint_choices_eq]
    exact hrestore stRec hRch
  · show originalScore = st.cluster.score
    exact hoS
  · show originalTerms = st.cluster.terms
    exact hoT
  · show (stRec.cluster.setJoint view jointType none).mainView = st.cluster.mainView
    rw [setJoint_mainView, hRmain, hst1cl, hcl1m]
  · intro t ht
    show (stRec.cluster.setJoint view jointType none).worldPos t = st.cluster.worldPos t
    rw [setJoint_worldPos, hRwp t ht, hwp1]
  · exact hRhist
  · intro c hc
    rcases hRpres c hc with hmem | hgood
    · left
      rw [hst1p] at hmem
      exact hmem
    · right
      exact hgood

theorem SearchOut_refl (env : SearchEnv) (jointI : ℕ) (st : SearchState)
    (hhist : ∀ j, st.histScore j = (st.histTerms j).sum) :
    SearchOut env jointI st st :=
  ⟨rfl, rfl, rfl, rfl, fun _ _ => rfl, hhist, fun c hc => Or.inl hc⟩

theorem SearchOut_trans (env : SearchEnv) (jointI : ℕ) (st1 st2 st3 : SearchState)
    (h1 : SearchOut env jointI st1 st2) (h2 : SearchOut env jointI st2 st3) :
    SearchOut env jointI st1 st3 := by
  constructor
  · rw [h2.choicesEq, h1.choicesEq]
  · rw [h2.scoreEq, h1.scoreEq]
  · rw [h2.termsEq, h1.termsEq]
  · rw [h2.mainEq, h1.mainEq]
  · intro t ht
    rw [h2.wpEq t ht, h1.wpEq t ht]
  · exact h2.histOK
  · intro c hc
    rcases h2.presGood c hc with hm | hg
    · exact h1.presGood c hm
    · right; exact hg

theorem SearchInv_transport (env : SearchEnv) (viewI jointI : ℕ) (hjo : env.jo.Nodup)
    (st st2 : SearchState) (inv : SearchInv env viewI jointI st)
    (hch : st2.cluster.choices = st.cluster.choices)
    (hmain : st2.cluster.mainView = st.cluster.mainView)
    (hscore : st2.cluster.score = st.cluster.score)
    (hterms : st2.cluster.terms = st.cluster.terms)
    (hwp : ∀ t, (∀ jI, jointI ≤ jI → jI < env.jo.length → env.jo.getD jI 0 ≠ t) →
        st2.cluster.worldPos t = st.cluster.worldPos t)
    (hhist : ∀ j, st2.histScore j = (st2.histTerms j).sum) :
    SearchInv env viewI jointI st2 := by
  constructor
  · rw [hmain]; exact inv.mainViewEq
  · rw [hscore, hterms]; exact inv.scoreTerms
  · exact hhist
  · rw [hch]; exact inv.chInv
  · apply DoneOK_congr env jointI st.cluster.choices st2.cluster.choices
        st.cluster.worldPos st2.cluster.worldPos
    · intro v jI _ _
      rw [hch]
    · intro jI h1 h2
      apply hwp
      intro jI2 hge hlt
      exact nodup_getD_ne env.jo hjo jI2 jI hlt h2 (by omega)
    · exact inv.doneOK

theorem candStep_cases (env : SearchEnv) (recurse : ℕ → ℕ → SearchState → SearchState)
    (viewI jointI : ℕ) (parentChoice : Option ℕ) (st : SearchState) (b : Bool)
    (choice : ℕ) :
    (candStep env recurse viewI jointI parentChoice (st, b) choice).1 = st ∨
    (∃ scorePAF scoreEpi : ℚ,
      (candStep env recurse viewI jointI parentChoice (st, b) choice).1 =
        candAccept env recurse viewI jointI st choice scorePAF scoreEpi ∧
      (jointI ≠ 0 → EPS ≤ scorePAF ∧ scorePAF =
        (env.mv.views.getD (env.vo.getD viewI 0) default).paf
          (jointAt env.mv (env.vo.getD viewI 0) (parentOf (env.jo.getD jointI 0))
            (parentChoice.getD 0)).ID
          (jointAt env.mv (env.vo.getD viewI 0) (env.jo.getD jointI 0) choice).ID) ∧
      (∀ prevI, prevI < viewI → ∀ pc,
        st.cluster.choices (env.vo.getD prevI 0) (env.jo.getD jointI 0) = some pc →
        EPS ≤ env.mv.epi
          (jointAt env.mv (env.vo.getD prevI 0) (env.jo.getD jointI 0) pc).ID
          (jointAt env.mv (env.vo.getD viewI 0) (env.jo.getD jointI 0) choice).ID)) := by
  unfold candStep
  lift_lets
  extract_lets st0 view jointType isNotRoot parentType curJoint parentJoint scorePAF epiScan
  have hst0 : st0 = st := rfl
  have hsp : scorePAF = if isNotRoot then
      (env.mv.views.getD view default).paf parentJoint.ID curJoint.ID else 0 := rfl
  by_cases hg1 : isNotRoot ∧ scorePAF < EPS
  · rw [if_pos hg1]
    left
    rfl
  · rw [if_neg hg1]
    by_cases hg2 : epiScan.1 = false
    · rw [if_pos hg2]
      left
      rfl
    · rw [if_neg hg2]
      right
      refine ⟨scorePAF, epiScan.2, rfl, ?_, ?_⟩
      · intro hnr
        have hnlt : ¬scorePAF < EPS := fun hlt => hg1 ⟨hnr, hlt⟩
        refine ⟨le_of_not_lt hnlt, ?_⟩
        rw [hsp, if_pos hnr]
      · intro prevI hlt pc hpc
        have htrue : epiScan.1 = true := by
          cases h : epiScan.1
          · exact absurd h hg2
          · rfl
        have hext := epiScan_extract env.mv env.vo st.cluster.choices jointType curJoint
          (List.range viewI) (true, 0) htrue
        exact hext prevI (List.mem_range.mpr hlt) pc hpc

theorem candStep_sound (env : SearchEnv)
    (h5 : env.mv.views.length = 5)
    (hvo : env.vo.Perm (List.range 5)) (hjo : env.jo.Nodup)
    (hpar : ∀ jI, 1 ≤ jI → jI < env.jo.length →
        ∃ k, k < jI ∧ env.jo.getD k 0 = parentOf (env.jo.getD jI 0))
    (recurse : ℕ → ℕ → SearchState → SearchState)
    (hrec : ∀ viewI jointI st, SearchInv env viewI jointI st → viewI < 5 →
        jointI ≤ env.jo.length → SearchOut env jointI st (recurse viewI jointI st))
    (viewI jointI : ℕ) (hv : viewI < 5) (hj : jointI < env.jo.length)
    (parentChoice : Option ℕ) (st : SearchState) (b : Bool) (choice : ℕ)
    (inv : SearchInv env viewI jointI st)
    (hpc : jointI ≠ 0 → ∃ pc, parentChoice = some pc ∧
        st.cluster.choices (env.vo.getD viewI 0) (parentOf (env.jo.getD jointI 0)) = some pc) :
    SearchOut env jointI st
      (candStep env recurse viewI jointI parentChoice (st, b) choice).1 := by
  rcases candStep_cases env recurse viewI jointI parentChoice st b choice with heq | heq
  · rw [heq]
    exact SearchOut_refl env jointI st inv.histOK
  · obtain ⟨scorePAF, scoreEpi, heq, hpafgate, hepigate⟩ := heq
    rw [heq]
    apply candAccept_sound env h5 hvo hjo hpar recurse hrec viewI jointI hv hj st choice
      scorePAF scoreEpi inv _ hepigate
    intro hnr
    obtain ⟨pc, hpcEq, hpcCh⟩ := hpc hnr
    obtain ⟨hple, hpeq⟩ := hpafgate hnr
    refine ⟨pc, hpcCh, ?_⟩
    rw [hpcEq] at hpeq
    simp only [Option.getD_some] at hpeq
    rw [← hpeq]
    exact hple

theorem candFold_sound (env : SearchEnv)
    (h5 : env.mv.views.length = 5)
    (hvo : env.vo.Perm (List.range 5)) (hjo : env.jo.Nodup)
    (hpar : ∀ jI, 1 ≤ jI → jI < env.jo.length →
        ∃ k, k < jI ∧ env.jo.getD k 0 = parentOf (env.jo.getD jI 0))
    (recurse : ℕ → ℕ → SearchState → SearchState)
    (hrec : ∀ viewI jointI st, SearchInv env viewI jointI st → viewI < 5 →
        jointI ≤ env.jo.length → SearchOut env jointI st (recurse viewI jointI st))
    (viewI jointI : ℕ) (hv : viewI < 5) (hj : jointI < env.jo.length)
    (parentChoice : Option ℕ) :
    ∀ (l : List ℕ) (st : SearchState) (b : Bool),
      SearchInv env viewI jointI st →
      (jointI ≠ 0 → ∃ pc, parentChoice = some pc ∧
          st.cluster.choices (env.vo.getD viewI 0) (parentOf (env.jo.getD jointI 0)) = some pc) →
      SearchOut env jointI st
        ((l.foldl (candStep env recurse viewI jointI parentChoice) (st, b)).1) := by
  intro l
  induction l with
  | nil =>
      intro st b inv _
      exact SearchOut_refl env jointI st inv.histOK
  | cons c rest ih =>
      intro st b inv hpc
      rw [List.foldl_cons]
      have hstep := candStep_sound env h5 hvo hjo hpar recurse hrec viewI jointI hv hj
        parentChoice st b c inv hpc
      have inv2 := SearchInv_transport env viewI jointI hjo st
        (candStep env recurse viewI jointI parentChoice (st, b) c).1 inv
        hstep.choicesEq hstep.mainEq hstep.scoreEq hstep.termsEq hstep.wpEq hstep.histOK
      have hpc2 : jointI ≠ 0 → ∃ pc, parentChoice = some pc ∧
          (candStep env recurse viewI jointI parentChoice (st, b) c).1.cluster.choices
            (env.vo.getD viewI 0) (parentOf (env.jo.getD jointI 0)) = some pc := by
        intro hnr
        obtain ⟨pc, h1, h2⟩ := hpc hnr
        exact ⟨pc, h1, by rw [hstep.choicesEq]; exact h2⟩
      have htail := ih (candStep env recurse viewI jointI parentChoice (st, b) c).1
        (candStep env recurse viewI jointI parentChoice (st, b) c).2 inv2 hpc2
      exact SearchOut_trans env jointI st _ _ hstep htail

theorem lastViewSkip_sound (env : SearchEnv)
    (h5 : env.mv.views.length = 5)
    (hvo : env.vo.Perm (List.range 5)) (hjo : env.jo.Nodup)
    (hpar : ∀ jI, 1 ≤ jI → jI < env.jo.length →
        ∃ k, k < jI ∧ env.jo.getD k 0 = parentOf (env.jo.getD jI 0))
    (recurse : ℕ → ℕ → SearchState → SearchState)
    (hrec : ∀ viewI jointI st, SearchInv env viewI jointI st → viewI < 5 →
        jointI ≤ env.jo.length → SearchOut env jointI st (recurse viewI jointI st))
    (jointI : ℕ) (hj : jointI < env.jo.length)
    (st : SearchState) (inv1 : SearchInv env 4 jointI st) :
    SearchOut env jointI st (lastViewSkip env recurse jointI st) := by
  have hshift : ShiftOut env jointI st
      (shiftCore env recurse jointI st
        (skipGate env jointI st.histScore st.histTerms
          (computeWorldPos env.mv env.vo st.cluster (env.jo.getD jointI 0)))) := by
    rcases skipGate_cases env jointI st.histScore st.histTerms
        (computeWorldPos env.mv env.vo st.cluster (env.jo.getD jointI 0)) with
      ⟨hb2, heq⟩ | ⟨hb2, heq⟩
    -- fewer than two rays: main-view choice cleared, score rolled back
    · have hwp1 : (computeWorldPos env.mv env.vo st.cluster (env.jo.getD jointI 0)).1 =
          st.cluster := computeWorldPos_false_eq _ _ _ _ hb2
      rw [hwp1] at heq
      rw [heq]
      apply shiftCore_sound env recurse hrec jointI hj st _ inv1.mainViewEq inv1.histOK
      · right
        exact setJoint_choices_eq st.cluster (env.vo.getD 0 0) (env.jo.getD jointI 0) none
      · exact setJoint_mainView st.cluster (env.vo.getD 0 0) (env.jo.getD jointI 0) none
      · show (if jointI = 0 then (0:ℚ) else st.histScore (jointI - 1)) =
          (if jointI = 0 then ([]:List ℚ) else st.histTerms (jointI - 1)).sum
        by_cases h0 : jointI = 0
        · rw [if_pos h0, if_pos h0]; rfl
        · rw [if_neg h0, if_neg h0]; exact inv1.histOK (jointI - 1)
      · intro u hu
        show (st.cluster.setJoint (env.vo.getD 0 0) (env.jo.getD jointI 0) none).worldPos u =
          st.cluster.worldPos u
        rw [setJoint_worldPos]
      · show ChInv env 0 (jointI + 1)
          (st.cluster.setJoint (env.vo.getD 0 0) (env.jo.getD jointI 0) none).choices
        rw [setJoint_choices_eq]
        exact ChInv_next env 4 jointI _
          (ChInv_clear_main env hvo hjo hpar 4 jointI hj st.cluster.choices inv1.chInv)
      · intro jI hlt hlen hs
        by_cases hje : jI = jointI
        · subst hje
          rw [setJoint_choices_eq] at hs
          rw [assignCh_apply, if_pos ⟨rfl, rfl⟩] at hs
          cases hs
        · have hjlt : jI < jointI := by omega
          have hne := nodup_getD_ne env.jo hjo jI jointI hlen hj hje
          rw [setJoint_choices_eq] at hs ⊢
          rw [assignCh_ne_type _ _ _ _ _ _ hne] at hs
          have hcge : canonGather env.mv
              (assignCh st.cluster.choices (env.vo.getD 0 0) (env.jo.getD jointI 0) none)
              (env.jo.getD jI 0) = canonGather env.mv st.cluster.choices (env.jo.getD jI 0) :=
            canonGather_congr _ _ _ _ (fun v => assignCh_ne_type _ _ _ _ _ _ hne)
          rw [hcge]
          show 2 ≤ _ ∧
            (st.cluster.setJoint (env.vo.getD 0 0) (env.jo.getD jointI 0) none).worldPos
              (env.jo.getD jI 0) = _
          rw [setJoint_worldPos]
          exact inv1.doneOK jI hjlt hlen hs
    -- at least two rays: same as the candidate branch's shift block
    · have h2rays : (st.cluster.choices (env.vo.getD 0 0) (env.jo.getD jointI 0)).isSome →
          2 ≤ (canonGather env.mv st.cluster.choices (env.jo.getD jointI 0)).length := by
        intro _
        have hglen := (computeWorldPos_snd env.mv env.vo st.cluster (env.jo.getD jointI 0)).mp hb2
        have hperm := gatherRaysConfs_perm_canon env.mv env.vo st.cluster
          (env.jo.getD jointI 0) h5 hvo
        rw [← hperm.length_eq]
        exact hglen
      have inv5 : SearchInv env 5 jointI st :=
        ⟨inv1.mainViewEq, inv1.scoreTerms, inv1.histOK,
         ChInv_weaken env 4 jointI _ inv1.chInv, inv1.doneOK⟩
      have hrw : shiftCore env recurse jointI st
          (skipGate env jointI st.histScore st.histTerms
            (computeWorldPos env.mv env.vo st.cluster (env.jo.getD jointI 0))) =
          nextJointShift env recurse jointI st := by
        rw [heq]; rfl
      rw [hrw]
      exact nextJointShift_sound env h5 hvo hjo hpar recurse hrec jointI hj st inv5 h2rays
  exact ⟨hshift.choicesEq, rfl, rfl, hshift.mainEq, hshift.wpEq, hshift.histOK,
    hshift.presGood⟩

theorem qstep_sound (env : SearchEnv)
    (h5 : env.mv.views.length = 5)
    (hvo : env.vo.Perm (List.range 5)) (hjo : env.jo.Nodup)
    (hpar : ∀ jI, 1 ≤ jI → jI < env.jo.length →
        ∃ k, k < jI ∧ env.jo.getD k 0 = parentOf (env.jo.getD jI 0))
    (recurse : ℕ → ℕ → SearchState → SearchState)
    (hrec : ∀ viewI jointI st, SearchInv env viewI jointI st → viewI < 5 →
        jointI ≤ env.jo.length → SearchOut env jointI st (recurse viewI jointI st))
    (viewI jointI : ℕ) (hv : viewI < 5) (hjle : jointI ≤ env.jo.length)
    (st : SearchState) (inv : SearchInv env viewI jointI st) :
    SearchOut env jointI st (qstep env recurse viewI jointI st) := by
  by_cases hterm : jointI = env.jo.length
  -- terminal case: the cluster is preserved and the state is otherwise unchanged
  · unfold qstep
    rw [if_pos hterm]
    refine ⟨rfl, rfl, rfl, rfl, fun _ _ => rfl, inv.histOK, ?_⟩
    intro c hc
    rcases List.mem_append.mp hc with hmem | hmem
    · left; exact hmem
    · right
      have hceq : c = st.cluster := List.mem_singleton.mp hmem
      subst hceq
      refine ⟨inv.mainViewEq, inv.scoreTerms, inv.chInv.gates, ?_⟩
      intro t hsome
      by_cases hmem2 : t ∈ env.jo
      · obtain ⟨jI, hjIlt, hjIeq⟩ := mem_exists_getD env.jo t hmem2
        have hd := inv.doneOK jI (by omega) hjIlt (by rw [hjIeq]; exact hsome)
        rw [hjIeq] at hd
        exact hd
      · rw [inv.chInv.outNone t hmem2 (env.vo.getD 0 0)] at hsome
        cases hsome
  -- non-terminal case
  · have hj : jointI < env.jo.length := by omega
    unfold qstep
    rw [if_neg hterm]
    lift_lets
    extract_lets viewNum view jointType isNotRoot parentType parentChoice choiceNum
      loopOut st1 successfulShift st2
    have hvn : viewNum = 5 := h5
    have hview : view = env.vo.getD viewI 0 := rfl
    have hjt : jointType = env.jo.getD jointI 0 := rfl
    have hpt : parentType = parentOf (env.jo.getD jointI 0) := rfl
    have hfold : SearchOut env jointI st st1 := by
      show SearchOut env jointI st loopOut.1
      by_cases hpc0 : parentChoice ≠ none
      · have hloopdef : loopOut = (List.range choiceNum).foldl
            (candStep env recurse viewI jointI parentChoice) (st, false) := by
          show (if parentChoice ≠ none then _ else _) = _
          rw [if_pos hpc0]
        rw [hloopdef]
        apply candFold_sound env h5 hvo hjo hpar recurse hrec viewI jointI hv hj parentChoice
          (List.range choiceNum) st false inv
        intro hnr
        obtain ⟨pc, hpc⟩ := Option.ne_none_iff_exists'.mp hpc0
        refine ⟨pc, hpc, ?_⟩
        have hpcd : parentChoice =
            if isNotRoot then st.cluster.getJoint view parentType else some 0 := rfl
        rw [hpcd, if_pos hnr] at hpc
        rw [← hview, ← hpt]
        exact hpc
      · have hloopdef : loopOut = (st, false) := by
          show (if parentChoice ≠ none then _ else _) = _
          rw [if_neg hpc0]
        rw [hloopdef]
        exact SearchOut_refl env jointI st inv.histOK
    have inv1 : SearchInv env viewI jointI st1 :=
      SearchInv_transport env viewI jointI hjo st st1 inv hfold.choicesEq hfold.mainEq
        hfold.scoreEq hfold.termsEq hfold.wpEq hfold.histOK
    by_cases hlast : viewI = viewNum - 1
    -- last view: the skip-or-shift block
    · rw [if_pos hlast]
      have hv4 : viewI = 4 := by omega
      have inv14 : SearchInv env 4 jointI st1 := hv4 ▸ inv1
      have hout := lastViewSkip_sound env h5 hvo hjo hpar recurse hrec jointI hj st1 inv14
      exact SearchOut_trans env jointI st st1 _ hfold hout
    · rw [if_neg hlast]
      by_cases hv0 : viewI ≠ 0
      -- middle view: go to the next view position
      · rw [if_pos hv0]
        have inv1' : SearchInv env (viewI + 1) jointI st1 :=
          ⟨inv1.mainViewEq, inv1.scoreTerms, inv1.histOK,
           ChInv_weaken env viewI jointI _ inv1.chInv, inv1.doneOK⟩
        have hv1lt : viewI + 1 < 5 := by omega
        have hout := hrec (viewI + 1) jointI st1 inv1' hv1lt (by omega)
        exact SearchOut_trans env jointI st st1 _ hfold hout
      -- pass root with no successful shift: record history, go to the next joint type
      · rw [if_neg hv0]
        have hveq0 : viewI = 0 := by omega
        have inv10 : SearchInv env 0 jointI st1 := hveq0 ▸ inv1
        by_cases hss : successfulShift = false
        · rw [if_pos hss]
          have hst2cl : st2.cluster = st1.cluster := rfl
          have hst2hS : st2.histScore =
              fun j => if j = jointI then st1.cluster.score else st1.histScore j := rfl
          have hst2hT : st2.histTerms =
              fun j => if j = jointI then st1.cluster.terms else st1.histTerms j := rfl
          have hst2pres : st2.preserved = st1.preserved := rfl
          have inv2 : SearchInv env 0 (jointI + 1) st2 := by
            constructor
            · rw [hst2cl]; exact inv10.mainViewEq
            · rw [hst2cl]; exact inv10.scoreTerms
            · intro j
              simp only [hst2hS, hst2hT]
              by_cases hjeq : j = jointI
              · rw [if_pos hjeq, if_pos hjeq]; exact inv10.scoreTerms
              · rw [if_neg hjeq, if_neg hjeq]; exact inv10.histOK j
            · rw [hst2cl]
              exact ChInv_next env 0 jointI _ inv10.chInv
            · rw [hst2cl]
              intro jI hlt hlen hs
              by_cases hje : jI = jointI
              · subst hje
                rw [inv10.chInv.curNone hlen 0 le_rfl (by omega)] at hs
                cases hs
              · exact inv10.doneOK jI (by omega) hlen hs
          have hout3 := hrec 0 (jointI + 1) st2 inv2 (by omega) (by omega)
          refine ⟨?_, ?_, ?_, ?_, ?_, ?_, ?_⟩
          · rw [hout3.choicesEq, hst2cl]; exact hfold.choicesEq
          · rw [hout3.scoreEq, hst2cl]; exact hfold.scoreEq
          · rw [hout3.termsEq, hst2cl]; exact hfold.termsEq
          · rw [hout3.mainEq, hst2cl]; exact hfold.mainEq
          · intro t ht
            rw [hout3.wpEq t (fun jI hge hlt => ht jI (by omega) hlt), hst2cl]
            exact hfold.wpEq t ht
          · exact hout3.histOK
          · intro c hc
            rcases hout3.presGood c hc with hmem | hgood
            · rw [hst2pres] at hmem
              exact hfold.presGood c hmem
            · right; exact hgood
        -- pass root after a successful shift: the state is returned as is
        · rw [if_neg hss]
          exact hfold

/-- Soundness of the fueled search: from any state satisfying the invariant,
the search restores the cluster and preserves only good clusters (for any
fuel, since exhausted fuel returns the state unchanged). -/
theorem qcompute_sound (env : SearchEnv)
    (h5 : env.mv.views.length = 5)
    (hvo : env.vo.Perm (List.range 5)) (hjo : env.jo.Nodup)
    (hpar : ∀ jI, 1 ≤ jI → jI < env.jo.length →
        ∃ k, k < jI ∧ env.jo.getD k 0 = parentOf (env.jo.getD jI 0)) :
    ∀ (fuel viewI jointI : ℕ) (st : SearchState), SearchInv env viewI jointI st →
      viewI < 5 → jointI ≤ env.jo.length →
      SearchOut env jointI st (qcompute env fuel viewI jointI st) := by
  intro fuel
  induction fuel with
  | zero =>
      intro viewI jointI st inv _ _
      exact SearchOut_refl env jointI st inv.histOK
  | succ fuel ih =>
      intro viewI jointI st inv hv hjle
      exact qstep_sound env h5 hvo hjo hpar (qcompute env fuel) ih viewI jointI hv hjle st inv

/-- The state at the start of a (viewOrder, jointOrder) pass: nothing assigned,
zero score, no recorded terms, consistent history. -/
def CleanState (st : SearchState) : Prop :=
  (∀ v t, st.cluster.choices v t = none) ∧
  st.cluster.score = 0 ∧ st.cluster.terms = [] ∧
  (∀ j, st.histScore j = (st.histTerms j).sum)

theorem SearchInv_of_clean (env : SearchEnv) (st : SearchState)
    (hc : CleanState st) (hmain : st.cluster.mainView = env.vo.getD 0 0) :
    SearchInv env 0 0 st := by
  obtain ⟨hch, hs, ht, hh⟩ := hc
  refine ⟨hmain, by rw [hs, ht]; rfl, hh, ⟨?_, ?_, ?_, ?_, ?_⟩, ?_⟩
  · intro jI _ _ v
    exact hch v (env.jo.getD jI 0)
  · intro _ vI _ _
    exact hch (env.vo.getD vI 0) (env.jo.getD 0 0)
  · intro t _ v
    exact hch v t
  · intro jI _ _ vI _ c hc2
    rw [hch] at hc2
    cases hc2
  · intro jI _ vI1 vI2 _ _ c1 c2 hc1 _
    rw [hch] at hc1
    cases hc1
  · intro jI hlt _ _
    exact absurd hlt (Nat.not_lt_zero jI)

/-- Running the joint-order passes of one camera permutation from a clean
state: the state stays clean, the main view stays put, and every newly
preserved cluster is good for the pass that preserved it. -/
theorem innerFold_sound (mv : MultiView) (cfg : QuickPoseCfg)
    (h5 : mv.views.length = 5) (vo : List ℕ) (hvo : vo.Perm (List.range 5)) :
    ∀ (jos : List (List ℕ)),
      (∀ jo ∈ jos, jo.Nodup ∧
        ∀ jI, 1 ≤ jI → jI < jo.length →
          ∃ k, k < jI ∧ jo.getD k 0 = parentOf (jo.getD jI 0)) →
      ∀ st : SearchState, CleanState st → st.cluster.mainView = vo.getD 0 0 →
      CleanState (jos.foldl
          (fun st jo => qcompute ⟨mv, cfg, vo, jo⟩ searchFuel 0 0 st) st) ∧
      (jos.foldl (fun st jo => qcompute ⟨mv, cfg, vo, jo⟩ searchFuel 0 0 st)
          st).cluster.mainView = vo.getD 0 0 ∧
      ∀ c ∈ (jos.foldl (fun st jo => qcompute ⟨mv, cfg, vo, jo⟩ searchFuel 0 0 st)
          st).preserved,
        c ∈ st.preserved ∨ ∃ jo ∈ jos, preservedGood ⟨mv, cfg, vo, jo⟩ c := by
  intro jos
  induction jos with
  | nil =>
      intro _ st hclean hmain
      exact ⟨hclean, hmain, fun c hc => Or.inl hc⟩
  | cons jo rest ih =>
      intro hside st hclean hmain
      rw [List.foldl_cons]
      have hjon := (hside jo (List.mem_cons_self jo rest)).1
      have hjop := (hside jo (List.mem_cons_self jo rest)).2
      have inv0 : SearchInv ⟨mv, cfg, vo, jo⟩ 0 0 st := SearchInv_of_clean _ st hclean hmain
      have hout : SearchOut ⟨mv, cfg, vo, jo⟩ 0 st
          (qcompute ⟨mv, cfg, vo, jo⟩ searchFuel 0 0 st) :=
        qcompute_sound ⟨mv, cfg, vo, jo⟩ h5 hvo hjon hjop searchFuel 0 0 st inv0
          (by omega) (by omega)
      have hclean2 : CleanState (qcompute ⟨mv, cfg, vo, jo⟩ searchFuel 0 0 st) :=
        ⟨fun v t => by rw [hout.choicesEq]; exact hclean.1 v t,
         by rw [hout.scoreEq]; exact hclean.2.1,
         by rw [hout.termsEq]; exact hclean.2.2.1,
         hout.histOK⟩
      have hmain2 : (qcompute ⟨mv, cfg, vo, jo⟩ searchFuel 0 0 st).cluster.mainView =
          vo.getD 0 0 := by
        rw [hout.mainEq]; exact hmain
      obtain ⟨hcl3, hm3, hpres3⟩ :=
        ih (fun j hj => hside j (List.mem_cons_of_mem jo hj)) _ hclean2 hmain2
      refine ⟨hcl3, hm3, ?_⟩
      intro c hc
      rcases hpres3 c hc with hmem | ⟨jo2, hjo2, hgood⟩
      · rcases hout.presGood c hmem with hmem2 | hgood
        · left; exact hmem2
        · right; exact ⟨jo, List.mem_cons_self jo rest, hgood⟩
      · right; exact ⟨jo2, List.mem_cons_of_mem jo hjo2, hgood⟩

/-- Running a list of camera permutations (each over all joint-order passes)
from a clean state: every newly preserved cluster is good for the pass that
preserved it. -/
theorem outerFold_sound (mv : MultiView) (cfg : QuickPoseCfg) (h5 : mv.views.length = 5)
    (hjos : ∀ jo ∈ jointOrdersSrc, jo.Nodup ∧
      ∀ jI, 1 ≤ jI → jI < jo.length →
        ∃ k, k < jI ∧ jo.getD k 0 = parentOf (jo.getD jI 0)) :
    ∀ (vos : List (List ℕ)), (∀ vo ∈ vos, vo.Perm (List.range 5)) →
    ∀ st : SearchState, CleanState st →
    CleanState (vos.foldl
        (fun st vo => jointOrdersSrc.foldl
          (fun st jo => qcompute ⟨mv, cfg, vo, jo⟩ searchFuel 0 0 st)
          { st with cluster := { st.cluster with mainView := vo.getD 0 0 } }) st) ∧
    ∀ c ∈ (vos.foldl
        (fun st vo => jointOrdersSrc.foldl
          (fun st jo => qcompute ⟨mv, cfg, vo, jo⟩ searchFuel 0 0 st)
          { st with cluster := { st.cluster with mainView := vo.getD 0 0 } }) st).preserved,
      c ∈ st.preserved ∨
        ∃ vo ∈ vos, ∃ jo ∈ jointOrdersSrc, preservedGood ⟨mv, cfg, vo, jo⟩ c := by
  intro vos
  induction vos with
  | nil =>
      intro _ st hclean
      exact ⟨hclean, fun c hc => Or.inl hc⟩
  | cons vo rest ih =>
      intro hside st hclean
      rw [List.foldl_cons]
      have hvop := hside vo (List.mem_cons_self vo rest)
      have hcleanM : CleanState
          { st with cluster := { st.cluster with mainView := vo.getD 0 0 } } :=
        ⟨hclean.1, hclean.2.1, hclean.2.2.1, hclean.2.2.2⟩
      obtain ⟨hcl2, _, hpres2⟩ := innerFold_sound mv cfg h5 vo hvop jointOrdersSrc hjos
        { st with cluster := { st.cluster with mainView := vo.getD 0 0 } } hcleanM rfl
      obtain ⟨hcl3, hpres3⟩ := ih (fun v hv => hside v (List.mem_cons_of_mem vo hv)) _ hcl2
      refine ⟨hcl3, ?_⟩
      intro c hc
      rcases hpres3 c hc with hmem | ⟨vo2, hvo2, jo2, hjo2, hgood⟩
      · rcases hpres2 c hmem with hmem2 | ⟨jo2, hjo2, hgood⟩
        · left; exact hmem2
        · right; exact ⟨vo, List.mem_cons_self vo rest, jo2, hjo2, hgood⟩
      · right; exact ⟨vo2, List.mem_cons_of_mem vo hvo2, jo2, hjo2, hgood⟩

/-- Every cluster preserved by the full search of QuickPose::compute is good
for the (viewOrder, jointOrder) pass that preserved it. -/
theorem computeAll_preserved_good (mv : MultiView) (cfg : QuickPoseCfg)
    (h5 : mv.views.length = 5) :
    ∀ c ∈ (computeAll mv cfg).preserved,
      ∃ vo ∈ viewOrdersSrc, ∃ jo ∈ jointOrdersSrc,
        preservedGood ⟨mv, cfg, vo, jo⟩ c := by
  have hjos : ∀ jo ∈ jointOrdersSrc, jo.Nodup ∧
      ∀ jI, 1 ≤ jI → jI < jo.length →
        ∃ k, k < jI ∧ jo.getD k 0 = parentOf (jo.getD jI 0) := by decide
  have hvos : ∀ vo ∈ viewOrdersSrc, vo.Perm (List.range 5) := by decide
  have hcleanInit : CleanState initialSearchState :=
    ⟨fun _ _ => rfl, rfl, rfl, fun _ => rfl⟩
  have hmaster := outerFold_sound mv cfg h5 hjos viewOrdersSrc hvos
    initialSearchState hcleanInit
  intro c hc
  rcases hmaster.2 c hc with hmem | hgood
  · exact absurd hmem (List.not_mem_nil c)
  · exact hgood

/-! ### A concrete end-to-end frame: one person joint (type 8) seen by two
cameras, with rays meeting at (0, 1, 0); the other three cameras see nothing.
All PAF and epipolar scores are 1. -/

def tView (r : Ray) (idv : ℕ) : View :=
  { joints := (List.range 9).map
      (fun t => if t = 8 then [{ ID := idv, ray := r, conf := 1 }] else []),
    paf := fun _ _ => 1 }

def tEmptyView : View := { joints := List.replicate 9 [], paf := fun _ _ => 1 }

def mvT : MultiView :=
  { views := [tView ⟨⟨0, 1, 0⟩, ⟨1, 0, 0⟩⟩ 10, tView ⟨⟨0, 0, 0⟩, ⟨0, 1, 0⟩⟩ 20,
      tEmptyView, tEmptyView, tEmptyView],
    epi := fun _ _ => 1 }

/-- C2: for every cluster preserved by the search of QuickPose::compute, the
stored score is exactly the sum of the accepted pairwise (PAF + epipolar)
terms recorded along its assignment path — the score updates and rollbacks of
the candidate branch, the bone-length-violation rollback and the skip branch
are all exact. -/
theorem C2_preserved_cluster_score_is_sum_of_recorded_terms
    (mv : MultiView) (cfg : QuickPoseCfg) (h5 : mv.views.length = 5) :
    ∀ c ∈ (computeAll mv cfg).preserved, c.score = c.terms.sum := by
  intro c hc
  obtain ⟨vo, _, jo, _, hgood⟩ := computeAll_preserved_good mv cfg h5 c hc
  exact hgood.2.1

set_option maxRecDepth 400000 in
/-- Witness for C2 at the two-camera frame mvT: the theorem applies, and the
frame is not vacuous — the preserved clusters carry total score 14 (14
clusters of score 1, each the sum of its recorded terms [1, 0]). -/
theorem C2_witness :
    (∀ c ∈ (computeAll mvT cfgNone).preserved, c.score = c.terms.sum) ∧
    ((computeAll mvT cfgNone).preserved.map (fun c => c.score)).sum = 14 :=
  ⟨C2_preserved_cluster_score_is_sum_of_recorded_terms mvT cfgNone rfl,
   by with_unfolding_all rfl⟩

/-- C6: in every preserved cluster, for the (viewOrder, jointOrder) pass that
preserved it: every assigned non-root candidate has part-affinity strictly
greater than 0 with the parent-joint candidate assigned in the same camera
(which exists), and any two same-joint-type candidates assigned in different
cameras have epipolar score strictly greater than 0 (queried as
earlier-visited camera first). -/
theorem C6_preserved_cluster_gates_positive
    (mv : MultiView) (cfg : QuickPoseCfg) (h5 : mv.views.length = 5) :
    ∀ c ∈ (computeAll mv cfg).preserved,
      ∃ vo ∈ viewOrdersSrc, ∃ jo ∈ jointOrdersSrc,
        (∀ jI, 1 ≤ jI → jI < jo.length → ∀ vI, vI < 5 → ∀ ch,
          c.choices (vo.getD vI 0) (jo.getD jI 0) = some ch →
          ∃ pc, c.choices (vo.getD vI 0) (parentOf (jo.getD jI 0)) = some pc ∧
            0 < (mv.views.getD (vo.getD vI 0) default).paf
              (jointAt mv (vo.getD vI 0) (parentOf (jo.getD jI 0)) pc).ID
              (jointAt mv (vo.getD vI 0) (jo.getD jI 0) ch).ID) ∧
        (∀ jI, jI < jo.length → ∀ vI1 vI2, vI1 < vI2 → vI2 < 5 → ∀ c1 c2,
          c.choices (vo.getD vI1 0) (jo.getD jI 0) = some c1 →
          c.choices (vo.getD vI2 0) (jo.getD jI 0) = some c2 →
          0 < mv.epi (jointAt mv (vo.getD vI1 0) (jo.getD jI 0) c1).ID
            (jointAt mv (vo.getD vI2 0) (jo.getD jI 0) c2).ID) := by
  intro c hc
  obtain ⟨vo, hvoM, jo, hjoM, hgood⟩ := computeAll_preserved_good mv cfg h5 c hc
  obtain ⟨hpafG, hepiG⟩ := hgood.2.2.1
  refine ⟨vo, hvoM, jo, hjoM, ?_, ?_⟩
  · intro jI h1 hlen vI hvI ch hch
    obtain ⟨pc, hpc, hle⟩ := hpafG jI h1 hlen vI hvI ch hch
    exact ⟨pc, hpc, lt_of_lt_of_le (by norm_num [EPS]) hle⟩
  · intro jI hlen vI1 vI2 h12 h2 c1 c2 hc1 hc2
    exact lt_of_lt_of_le (by norm_num [EPS]) (hepiG jI hlen vI1 vI2 h12 h2 c1 c2 hc1 hc2)

set_option maxRecDepth 400000 in
/-- Witness for C6 at the two-camera frame mvT (which preserves 49 clusters,
so the gate guarantee is not vacuous). -/
theorem C6_witness :
    (computeAll mvT cfgNone).preserved.length = 49 ∧
    ∀ c ∈ (computeAll mvT cfgNone).preserved,
      ∃ vo ∈ viewOrdersSrc, ∃ jo ∈ jointOrdersSrc,
        (∀ jI, 1 ≤ jI → jI < jo.length → ∀ vI, vI < 5 → ∀ ch,
          c.choices (vo.getD vI 0) (jo.getD jI 0) = some ch →
          ∃ pc, c.choices (vo.getD vI 0) (parentOf (jo.getD jI 0)) = some pc ∧
            0 < (mvT.views.getD (vo.getD vI 0) default).paf
              (jointAt mvT (vo.getD vI 0) (parentOf (jo.getD jI 0)) pc).ID
              (jointAt mvT (vo.getD vI 0) (jo.getD jI 0) ch).ID) ∧
        (∀ jI, jI < jo.length → ∀ vI1 vI2, vI1 < vI2 → vI2 < 5 → ∀ c1 c2,
          c.choices (vo.getD vI1 0) (jo.getD jI 0) = some c1 →
          c.choices (vo.getD vI2 0) (jo.getD jI 0) = some c2 →
          0 < mvT.epi (jointAt mvT (vo.getD vI1 0) (jo.getD jI 0) c1).ID
            (jointAt mvT (vo.getD vI2 0) (jo.getD jI 0) c2).ID) :=
  ⟨by with_unfolding_all rfl, C6_preserved_cluster_gates_positive mvT cfgNone rfl⟩

/-! ### Tracing committed pose joints back to preserved clusters -/

/-- Every set has-joint flag of a pose traces back to a cluster of the input
list whose main view has the joint type assigned, the committed position being
that cluster's triangulated world position. -/
def PoseSrc (preserved : List QCluster) (pose : Pose) : Prop :=
  ∀ t, pose.hasJoint t = true →
    ∃ c ∈ preserved, (c.choices c.mainView t).isSome ∧ pose.jointPos t = c.worldPos t

theorem foldl_poses_inv {α : Type} (f : ResolveState → α → ResolveState)
    (P : Pose → Prop)
    (hf : ∀ st a, (∀ pose ∈ st.poses, P pose) → ∀ pose ∈ (f st a).poses, P pose) :
    ∀ (l : List α) (st : ResolveState), (∀ pose ∈ st.poses, P pose) →
      ∀ pose ∈ (l.foldl f st).poses, P pose := by
  intro l
  induction l with
  | nil => intro st h; exact h
  | cons a rest ih =>
      intro st h
      rw [List.foldl_cons]
      exact ih _ (hf st a h)

theorem commitCluster_poses (viewNum typeNum : ℕ) (preserved : List QCluster)
    (cluster : QCluster) (hcin : cluster ∈ preserved)
    (st : ResolveState) (personID : ℕ)
    (h : ∀ pose ∈ st.poses, PoseSrc preserved pose) :
    ∀ pose ∈ (commitCluster viewNum typeNum st cluster personID).poses,
      PoseSrc preserved pose := by
  unfold commitCluster
  apply foldl_poses_inv _ _ ?_ _ st h
  intro st1 t h1
  apply foldl_poses_inv _ _ ?_ _ st1 h1
  intro st2 v h2
  intro pose hpose
  dsimp only at hpose
  by_cases hguard : cluster.getJoint cluster.mainView t = none
  · rw [if_pos hguard] at hpose
    exact h2 pose hpose
  · rw [if_neg hguard] at hpose
    rcases hch : cluster.getJoint v t with _ | choice
    · rw [hch] at hpose
      exact h2 pose hpose
    · rw [hch] at hpose
      dsimp only at hpose
      have hold : PoseSrc preserved (st2.poses.getD personID default) := by
        by_cases hlt : personID < st2.poses.length
        · rw [List.getD_eq_getElem st2.poses default hlt]
          exact h2 _ (List.getElem_mem hlt)
        · rw [List.getD_eq_default st2.poses default (by omega)]
          intro u hu
          cases hu
      rcases List.mem_or_eq_of_mem_set hpose with hmem | heq
      · exact h2 pose hmem
      · subst heq
        by_cases hhas : (st2.poses.getD personID default).hasJoint t = false
        · rw [if_pos hhas]
          intro u hu
          dsimp only at hu
          by_cases hut : u = t
          · subst hut
            refine ⟨cluster, hcin, Option.isSome_iff_ne_none.mpr hguard, ?_⟩
            show (if u = u then cluster.worldPos u
              else (st2.poses.getD personID default).jointPos u) = cluster.worldPos u
            rw [if_pos rfl]
          · rw [if_neg hut] at hu
            obtain ⟨c, hcmem, hcsome, hcpos⟩ := hold u hu
            refine ⟨c, hcmem, hcsome, ?_⟩
            show (if u = t then cluster.worldPos t
              else (st2.poses.getD personID default).jointPos u) = c.worldPos u
            rw [if_neg hut]
            exact hcpos
        · rw [if_neg hhas]
          exact hold

theorem resolveStep_poses (viewNum typeNum : ℕ) (preserved : List QCluster)
    (cluster : QCluster) (hcin : cluster ∈ preserved)
    (st : ResolveState) (h : ∀ pose ∈ st.poses, PoseSrc preserved pose) :
    ∀ pose ∈ (resolveStep viewNum typeNum st cluster).poses,
      PoseSrc preserved pose := by
  unfold resolveStep
  lift_lets
  extract_lets scan isConflicting isContributing personID newPose
  by_cases hrej : isConflicting ∨ isContributing = false
  · rw [if_pos hrej]
    exact h
  · rw [if_neg hrej]
    rcases hscan : scan.2.2 with _ | personID
    · apply commitCluster_poses viewNum typeNum preserved cluster hcin _ _ ?_
      intro pose hpose
      rcases List.mem_append.mp hpose with hmem | hmem
      · exact h pose hmem
      · have hpe : pose = ⟨st.poses.length, fun _ => false, fun _ => Vec3.zero⟩ :=
          List.mem_singleton.mp hmem
        subst hpe
        intro u hu
        cases hu
    · dsimp only
      by_cases hmc : mergeConflict viewNum typeNum st cluster personID
      · rw [if_pos hmc]
        exact h
      · rw [if_neg hmc]
        exact commitCluster_poses viewNum typeNum preserved cluster hcin st personID h

theorem resolveFold_poses (viewNum typeNum : ℕ) (preserved : List QCluster) :
    ∀ (l : List QCluster), (∀ c ∈ l, c ∈ preserved) →
    ∀ st : ResolveState, (∀ pose ∈ st.poses, PoseSrc preserved pose) →
    ∀ pose ∈ (l.foldl (resolveStep viewNum typeNum) st).poses,
      PoseSrc preserved pose := by
  intro l
  induction l with
  | nil => intro _ st h; exact h
  | cons cl rest ih =>
      intro hsub st h
      rw [List.foldl_cons]
      exact ih (fun c hc => hsub c (List.mem_cons_of_mem cl hc)) _
        (resolveStep_poses viewNum typeNum preserved cl
          (hsub cl (List.mem_cons_self cl rest)) st h)

theorem postProcessing_poses (mv : MultiView) (preserved : List QCluster) :
    ∀ pose ∈ postProcessing mv preserved, PoseSrc preserved pose := by
  unfold postProcessing
  apply resolveFold_poses mv.views.length (mv.views.getD 0 default).joints.length preserved
    (sortClusters preserved) ?_ initResolveState ?_
  · intro c hc
    exact (List.Perm.mem_iff (List.perm_insertionSort _ preserved)).mp hc
  · intro pose hpose
    cases hpose

/-- C4: every joint position committed to a final Pose (has-joint flag set)
was taken from a preserved cluster in which the main view has the joint type
assigned; the search guarantees such a cluster gathered at least two assigned
camera rays for that joint type and stored their least-squares intersection,
which is exactly the committed position. -/
theorem C4_committed_joint_triangulated_from_two_rays
    (mv : MultiView) (cfg : QuickPoseCfg) (h5 : mv.views.length = 5) :
    ∀ pose ∈ compute mv cfg, ∀ t, pose.hasJoint t = true →
      ∃ c ∈ (computeAll mv cfg).preserved,
        pose.jointPos t = c.worldPos t ∧
        2 ≤ (canonGather mv c.choices t).length ∧
        c.worldPos t = multiRayIntersect ((canonGather mv c.choices t).map Prod.fst) := by
  intro pose hpose t hhas
  obtain ⟨c, hcmem, hcsome, hcpos⟩ :=
    postProcessing_poses mv (computeAll mv cfg).preserved pose hpose t hhas
  obtain ⟨vo, _, jo, _, hgood⟩ := computeAll_preserved_good mv cfg h5 c hcmem
  have hmain : c.mainView = vo.getD 0 0 := hgood.1
  have hray := hgood.2.2.2 t (by rw [← hmain]; exact hcsome)
  exact ⟨c, hcmem, hcpos, hray.1, hray.2⟩

set_option maxRecDepth 400000 in
/-- Witness for C4 at the two-camera frame mvT: the single returned pose has
joint type 8 committed, and the theorem traces it to a preserved cluster with
at least two gathered rays whose intersection is the committed position. -/
theorem C4_witness :
    ∃ h1 : 0 < (compute mvT cfgNone).length,
      ((compute mvT cfgNone).get ⟨0, h1⟩).hasJoint 8 = true ∧
      ∃ c ∈ (computeAll mvT cfgNone).preserved,
        ((compute mvT cfgNone).get ⟨0, h1⟩).jointPos 8 = c.worldPos 8 ∧
        2 ≤ (canonGather mvT c.choices 8).length ∧
        c.worldPos 8 = multiRayIntersect ((canonGather mvT c.choices 8).map Prod.fst) := by
  have h1 : 0 < (compute mvT cfgNone).length := by with_unfolding_all decide
  have hhas : ((compute mvT cfgNone).get ⟨0, h1⟩).hasJoint 8 = true := by
    with_unfolding_all rfl
  exact ⟨h1, hhas, C4_committed_joint_triangulated_from_two_rays mvT cfgNone rfl
    ((compute mvT cfgNone).get ⟨0, h1⟩) (List.get_mem _ _ h1) 8 hhas⟩

/-! ### The conflict scan of postProcessing, named step functions -/

def scanInnerStep (st : ResolveState) (cluster : QCluster) (t : ℕ)
    (acc : Bool × Bool × Option ℕ) (v : ℕ) : Bool × Bool × Option ℕ :=
  if acc.1 then acc
  else
    match cluster.getJoint v t with
    | none => acc
    | some choice =>
        match st.VJCPersons v t choice with
        | none => (acc.1, true, acc.2.2)
        | some p =>
            match acc.2.2 with
            | none => (acc.1, acc.2.1, some p)
            | some q => if q ≠ p then (true, acc.2.1, acc.2.2) else acc

def scanOuterStep (viewNum : ℕ) (st : ResolveState) (cluster : QCluster)
    (acc : Bool × Bool × Option ℕ) (t : ℕ) : Bool × Bool × Option ℕ :=
  if acc.1 then acc
  else if cluster.getJoint cluster.mainView t = none then acc
  else
    (List.range viewNum).foldl (scanInnerStep st cluster t) acc

theorem scanClaims_eq (viewNum typeNum : ℕ) (st : ResolveState) (cluster : QCluster) :
    scanClaims viewNum typeNum st cluster =
      (List.range typeNum).foldl (scanOuterStep viewNum st cluster) (false, false, none) :=
  rfl

theorem scanInnerStep_frozen (st : ResolveState) (cluster : QCluster) (t : ℕ)
    (acc : Bool × Bool × Option ℕ) (v : ℕ) (h : acc.1 = true) :
    scanInnerStep st cluster t acc v = acc := by
  unfold scanInnerStep
  rw [if_pos h]

theorem scanInner_freeze (st : ResolveState) (cluster : QCluster) (t : ℕ) :
    ∀ (vs : List ℕ) (acc : Bool × Bool × Option ℕ), acc.1 = true →
      vs.foldl (scanInnerStep st cluster t) acc = acc := by
  intro vs
  induction vs with
  | nil => intro acc _; rfl
  | cons v rest ih =>
      intro acc h
      rw [List.foldl_cons, scanInnerStep_frozen st cluster t acc v h]
      exact ih acc h

theorem scanInnerStep_stick (st : ResolveState) (cluster : QCluster) (t : ℕ)
    (acc : Bool × Bool × Option ℕ) (v : ℕ) (q : ℕ) (h : acc.2.2 = some q) :
    (scanInnerStep st cluster t acc v).2.2 = some q := by
  by_cases hf : acc.1 = true
  · rw [scanInnerStep_frozen st cluster t acc v hf]; exact h
  · cases hcj : cluster.getJoint v t with
    | none =>
        have hstep : scanInnerStep st cluster t acc v = acc := by
          unfold scanInnerStep
          rw [if_neg hf, hcj]
        rw [hstep]; exact h
    | some choice =>
        cases hvp : st.VJCPersons v t choice with
        | none =>
            have hstep : scanInnerStep st cluster t acc v = (acc.1, true, acc.2.2) := by
              unfold scanInnerStep
              rw [if_neg hf]
              simp only [hcj, hvp]
            rw [hstep]; exact h
        | some p =>
            have hstep : scanInnerStep st cluster t acc v =
                (if q ≠ p then (true, acc.2.1, acc.2.2) else acc) := by
              unfold scanInnerStep
              rw [if_neg hf]
              simp only [hcj, hvp, h]
            rw [hstep]
            by_cases hqp : q ≠ p
            · rw [if_pos hqp]; exact h
            · rw [if_neg hqp]; exact h

theorem scanInner_stick (st : ResolveState) (cluster : QCluster) (t : ℕ) :
    ∀ (vs : List ℕ) (acc : Bool × Bool × Option ℕ) (q : ℕ), acc.2.2 = some q →
      (vs.foldl (scanInnerStep st cluster t) acc).2.2 = some q := by
  intro vs
  induction vs with
  | nil => intro acc q h; exact h
  | cons v rest ih =>
      intro acc q h
      rw [List.foldl_cons]
      exact ih _ q (scanInnerStep_stick st cluster t acc v q h)

theorem scanInner_owner (st : ResolveState) (cluster : QCluster) (t : ℕ) :
    ∀ (vs : List ℕ) (acc : Bool × Bool × Option ℕ),
      (vs.foldl (scanInnerStep st cluster t) acc).1 = false →
      ∀ v ∈ vs, ∀ c p, cluster.getJoint v t = some c → st.VJCPersons v t c = some p →
        (vs.foldl (scanInnerStep st cluster t) acc).2.2 = some p := by
  intro vs
  induction vs with
  | nil =>
      intro acc _ v hv
      exact absurd hv (List.not_mem_nil v)
  | cons v0 rest ih =>
      intro acc hf v hv c p hcj hvp
      rw [List.foldl_cons] at hf ⊢
      have haccf : acc.1 = false := by
        cases hb : acc.1
        · rfl
        · exfalso
          rw [scanInnerStep_frozen st cluster t acc v0 hb,
            scanInner_freeze st cluster t rest acc hb, hb] at hf
          cases hf
      rcases List.mem_cons.mp hv with rfl | hmem
      · have hstep : scanInnerStep st cluster t acc v =
            (match acc.2.2 with
             | none => (acc.1, acc.2.1, some p)
             | some q => if q ≠ p then (true, acc.2.1, acc.2.2) else acc) := by
          unfold scanInnerStep
          rw [if_neg (by rw [haccf]; exact Bool.false_ne_true)]
          simp only [hcj, hvp]
        cases hacc2 : acc.2.2 with
        | none =>
            rw [hstep, hacc2]
            exact scanInner_stick st cluster t rest _ p rfl
        | some q =>
            by_cases hqp : q ≠ p
            · exfalso
              rw [hstep, hacc2] at hf
              dsimp only at hf
              rw [if_pos hqp, scanInner_freeze st cluster t rest _ rfl] at hf
              cases hf
            · push_neg at hqp
              rw [hstep, hacc2]
              dsimp only
              rw [if_neg (by rw [hqp]; exact fun h => h rfl)]
              exact hqp ▸ scanInner_stick st cluster t rest acc q hacc2
      · exact ih (scanInnerStep st cluster t acc v0) hf v hmem c p hcj hvp

theorem scanOuterStep_frozen (viewNum : ℕ) (st : ResolveState) (cluster : QCluster)
    (acc : Bool × Bool × Option ℕ) (t : ℕ) (h : acc.1 = true) :
    scanOuterStep viewNum st cluster acc t = acc := by
  unfold scanOuterStep
  rw [if_pos h]

theorem scanOuter_freeze (viewNum : ℕ) (st : ResolveState) (cluster : QCluster) :
    ∀ (ts : List ℕ) (acc : Bool × Bool × Option ℕ), acc.1 = true →
      ts.foldl (scanOuterStep viewNum st cluster) acc = acc := by
  intro ts
  induction ts with
  | nil => intro acc _; rfl
  | cons t rest ih =>
      intro acc h
      rw [List.foldl_cons, scanOuterStep_frozen viewNum st cluster acc t h]
      exact ih acc h

theorem scanOuterStep_stick (viewNum : ℕ) (st : ResolveState) (cluster : QCluster)
    (acc : Bool × Bool × Option ℕ) (t : ℕ) (q : ℕ) (h : acc.2.2 = some q) :
    (scanOuterStep viewNum st cluster acc t).2.2 = some q := by
  unfold scanOuterStep
  by_cases hf : acc.1 = true
  · rw [if_pos hf]; exact h
  · rw [if_neg hf]
    by_cases hg : cluster.getJoint cluster.mainView t = none
    · rw [if_pos hg]; exact h
    · rw [if_neg hg]
      exact scanInner_stick st cluster t (List.range viewNum) acc q h

theorem scanOuter_stick (viewNum : ℕ) (st : ResolveState) (cluster : QCluster) :
    ∀ (ts : List ℕ) (acc : Bool × Bool × Option ℕ) (q : ℕ), acc.2.2 = some q →
      (ts.foldl (scanOuterStep viewNum st cluster) acc).2.2 = some q := by
  intro ts
  induction ts with
  | nil => intro acc q h; exact h
  | cons t rest ih =>
      intro acc q h
      rw [List.foldl_cons]
      exact ih _ q (scanOuterStep_stick viewNum st cluster acc t q h)

theorem scanOuter_owner (viewNum : ℕ) (st : ResolveState) (cluster : QCluster) :
    ∀ (ts : List ℕ) (acc : Bool × Bool × Option ℕ),
      (ts.foldl (scanOuterStep viewNum st cluster) acc).1 = false →
      ∀ t ∈ ts, cluster.getJoint cluster.mainView t ≠ none →
      ∀ v ∈ List.range viewNum, ∀ c p, cluster.getJoint v t = some c →
        st.VJCPersons v t c = some p →
        (ts.foldl (scanOuterStep viewNum st cluster) acc).2.2 = some p := by
  intro ts
  induction ts with
  | nil =>
      intro acc _ t ht
      exact absurd ht (List.not_mem_nil t)
  | cons t0 rest ih =>
      intro acc hf t ht hg v hv c p hcj hvp
      rw [List.foldl_cons] at hf ⊢
      have haccf : acc.1 = false := by
        cases hb : acc.1
        · rfl
        · exfalso
          rw [scanOuterStep_frozen viewNum st cluster acc t0 hb,
            scanOuter_freeze viewNum st cluster rest acc hb, hb] at hf
          cases hf
      rcases List.mem_cons.mp ht with rfl | hmem
      · have hstep : scanOuterStep viewNum st cluster acc t =
            (List.range viewNum).foldl (scanInnerStep st cluster t) acc := by
          unfold scanOuterStep
          rw [if_neg (by rw [haccf]; exact Bool.false_ne_true), if_neg hg]
        have hin1 : ((List.range viewNum).foldl (scanInnerStep st cluster t) acc).1 = false := by
          cases hb : ((List.range viewNum).foldl (scanInnerStep st cluster t) acc).1
          · rfl
          · exfalso
            rw [hstep, scanOuter_freeze viewNum st cluster rest _ hb, hb] at hf
            cases hf
        have hown := scanInner_owner st cluster t (List.range viewNum) acc hin1 v hv c p hcj hvp
        rw [hstep]
        exact scanOuter_stick viewNum st cluster rest _ p hown
      · exact ih (scanOuterStep viewNum st cluster acc t0) hf t hmem hg v hv c p hcj hvp

/-- Two claimed triples owned by different committed persons make the first
scan flag the cluster as conflicting (the break keeps the flag set). -/
theorem scanClaims_conflicting (viewNum typeNum : ℕ) (st : ResolveState)
    (cluster : QCluster) (t1 v1 c1 p t2 v2 c2 q : ℕ)
    (ht1 : t1 < typeNum) (ht2 : t2 < typeNum) (hv1 : v1 < viewNum) (hv2 : v2 < viewNum)
    (hg1 : cluster.getJoint cluster.mainView t1 ≠ none)
    (hg2 : cluster.getJoint cluster.mainView t2 ≠ none)
    (hc1 : cluster.getJoint v1 t1 = some c1)
    (hc2 : cluster.getJoint v2 t2 = some c2)
    (hp : st.VJCPersons v1 t1 c1 = some p)
    (hq : st.VJCPersons v2 t2 c2 = some q)
    (hne : p ≠ q) :
    (scanClaims viewNum typeNum st cluster).1 = true := by
  rw [scanClaims_eq]
  cases hb : ((List.range typeNum).foldl (scanOuterStep viewNum st cluster)
      (false, false, none)).1
  · exfalso
    have h1 := scanOuter_owner viewNum st cluster (List.range typeNum) (false, false, none)
      hb t1 (List.mem_range.mpr ht1) hg1 v1 (List.mem_range.mpr hv1) c1 p hc1 hp
    have h2 := scanOuter_owner viewNum st cluster (List.range typeNum) (false, false, none)
      hb t2 (List.mem_range.mpr ht2) hg2 v2 (List.mem_range.mpr hv2) c2 q hc2 hq
    rw [h1] at h2
    exact hne (Option.some_injective ℕ h2)
  · rfl

instance : IsTotal QCluster (fun a b => b.score ≤ a.score) :=
  ⟨fun a b => le_total b.score a.score⟩

instance : IsTrans QCluster (fun a b => b.score ≤ a.score) :=
  ⟨fun _ _ _ h1 h2 => le_trans h2 h1⟩

theorem sortClusters_sorted (l : List QCluster) :
    List.Sorted (fun a b => b.score ≤ a.score) (sortClusters l) :=
  List.sorted_insertionSort _ l

/-- C5: the resolution loop processes the preserved clusters in descending
score order (the sort of postProcessing), and a cluster whose claims include a
candidate triple owned by one committed person and another triple owned by a
different committed person — the same triples claimed under two different
person identities — is rejected atomically: the resolve step returns the state
unchanged, so no person table entry, no pose flag and no pose position is
modified. -/
theorem C5_cross_identity_cluster_rejected_atomically
    (viewNum typeNum : ℕ) (preserved : List QCluster)
    (st : ResolveState) (cluster : QCluster)
    (t1 v1 c1 p t2 v2 c2 q : ℕ)
    (ht1 : t1 < typeNum) (ht2 : t2 < typeNum) (hv1 : v1 < viewNum) (hv2 : v2 < viewNum)
    (hg1 : cluster.getJoint cluster.mainView t1 ≠ none)
    (hg2 : cluster.getJoint cluster.mainView t2 ≠ none)
    (hc1 : cluster.getJoint v1 t1 = some c1)
    (hc2 : cluster.getJoint v2 t2 = some c2)
    (hp : st.VJCPersons v1 t1 c1 = some p)
    (hq : st.VJCPersons v2 t2 c2 = some q)
    (hne : p ≠ q) :
    List.Sorted (fun a b => b.score ≤ a.score) (sortClusters preserved) ∧
    resolveStep viewNum typeNum st cluster = st := by
  refine ⟨sortClusters_sorted preserved, ?_⟩
  have hconf := scanClaims_conflicting viewNum typeNum st cluster t1 v1 c1 p t2 v2 c2 q
    ht1 ht2 hv1 hv2 hg1 hg2 hc1 hc2 hp hq hne
  unfold resolveStep
  lift_lets
  extract_lets scan isConflicting isContributing personID newPose
  have hic : isConflicting = true := hconf
  rw [if_pos (Or.inl hic)]

/-- Concrete rejected cluster: it claims the type-8 candidate of camera 0
(owned by person 0) and the type-1 candidate of camera 1 (owned by person 1). -/
def cl5 : QCluster :=
  { mainView := 0, score := 1,
    choices := fun v t =>
      if v = 0 ∧ t = 8 then some 0
      else if v = 1 ∧ t = 1 then some 0
      else if v = 0 ∧ t = 1 then some 0 else none,
    worldPos := fun _ => Vec3.zero, terms := [1] }

/-- Concrete resolution state in which person 0 owns candidate (0, 8, 0) and
person 1 owns candidate (1, 1, 0). -/
def st5 : ResolveState :=
  { VJCPersons := fun v t c =>
      if v = 0 ∧ t = 8 ∧ c = 0 then some 0
      else if v = 1 ∧ t = 1 ∧ c = 0 then some 1 else none,
    VJPChoices := fun _ _ _ => none,
    poses := [⟨0, fun _ => false, fun _ => Vec3.zero⟩,
      ⟨1, fun _ => false, fun _ => Vec3.zero⟩] }

/-- Witness for C5 at the concrete two-owner state. -/
theorem C5_witness :
    List.Sorted (fun a b => b.score ≤ a.score) (sortClusters [cl5]) ∧
    resolveStep 5 9 st5 cl5 = st5 :=
  C5_cross_identity_cluster_rejected_atomically 5 9 [cl5] st5 cl5
    8 0 0 0 1 1 0 1 (by decide) (by decide) (by decide) (by decide)
    (by decide) (by decide) (by decide) (by decide) (by decide) (by decide) (by decide)

/-! ### C8: counting the clusters preserved on a candidate-dense frame -/

theorem epiScan_true (mv : MultiView) (vo : List ℕ) (ch : ℕ → ℕ → Option ℕ)
    (jt : ℕ) (cur : Joint) (hepi : ∀ a b, ¬ mv.epi a b < EPS) :
    ∀ (l : List ℕ) (init : Bool × ℚ), init.1 = true →
      ((l.foldl (fun (er : Bool × ℚ) prevViewI =>
        if er.1 = false then er
        else
          match ch (vo.getD prevViewI 0) jt with
          | none => er
          | some prevChoice =>
              if mv.epi (jointAt mv (vo.getD prevViewI 0) jt prevChoice).ID cur.ID < EPS then
                (false, er.2)
              else (true, er.2 + mv.epi (jointAt mv (vo.getD prevViewI 0) jt prevChoice).ID cur.ID))
        init).1 = true) := by
  intro l
  induction l with
  | nil => intro init h; exact h
  | cons p rest ih =>
      intro init h
      rw [List.foldl_cons]
      apply ih
      show (if init.1 = false then init else _).1 = true
      rw [if_neg (by rw [h]; exact fun hc => nomatch hc)]
      cases hch : ch (vo.getD p 0) jt with
      | none => exact h
      | some prevChoice =>
          dsimp only
          rw [if_neg (hepi _ _)]

/-- From a root position onward (jointI ≥ 1) on a frame whose non-root pass
types have no candidates, the search marches straight to the terminal case and
preserves exactly one cluster. -/
theorem qcompute_tail_count (env : SearchEnv)
    (h5 : env.mv.views.length = 5)
    (hc0 : ∀ jI, 1 ≤ jI → jI < env.jo.length →
      ((env.mv.views.getD (env.vo.getD 0 0) default).joints.getD (env.jo.getD jI 0) []).length = 0) :
    ∀ (k fuel jointI : ℕ) (st : SearchState), k + 1 ≤ fuel → jointI + k = env.jo.length →
      1 ≤ jointI →
      (qcompute env fuel 0 jointI st).preserved.length = st.preserved.length + 1 := by
  intro k
  induction k with
  | zero =>
      intro fuel jointI st hfuel hlen h1
      obtain ⟨f, rfl⟩ : ∃ f, fuel = f + 1 := ⟨fuel - 1, by omega⟩
      show (qstep env (qcompute env f) 0 jointI st).preserved.length = _
      unfold qstep
      rw [if_pos (by omega : jointI = env.jo.length)]
      simp
  | succ k ih =>
      intro fuel jointI st hfuel hlen h1
      obtain ⟨f, rfl⟩ : ∃ f, fuel = f + 1 := ⟨fuel - 1, by omega⟩
      show (qstep env (qcompute env f) 0 jointI st).preserved.length = _
      unfold qstep
      rw [if_neg (by omega : ¬jointI = env.jo.length)]
      lift_lets
      extract_lets viewNum view jointType isNotRoot parentType parentChoice choiceNum
        loopOut st1 successfulShift st2
      have hvn : viewNum = 5 := h5
      have hcn : choiceNum = 0 := hc0 jointI h1 (by omega)
      have hloop : loopOut = (st, false) := by
        show (if parentChoice ≠ none then
            (List.range choiceNum).foldl
              (candStep env (qcompute env f) 0 jointI parentChoice) (st, false)
          else (st, false)) = (st, false)
        rw [hcn]
        by_cases hpc : parentChoice ≠ none
        · rw [if_pos hpc]; rfl
        · rw [if_neg hpc]
      have hst1 : st1 = st := by show loopOut.1 = st; rw [hloop]
      have hss : successfulShift = false := by show loopOut.2 = false; rw [hloop]
      rw [if_neg (by omega : ¬(0 : ℕ) = viewNum - 1),
        if_neg (by exact fun h => h rfl : ¬(0 : ℕ) ≠ 0), if_pos hss]
      rw [ih f (jointI + 1) st2 (by omega) (by omega) (by omega)]
      show st2.preserved.length + 1 = st.preserved.length + 1
      have hp : st2.preserved = st.preserved := by
        show st1.preserved = st.preserved
        rw [hst1]
      rw [hp]

theorem candAccept_count (env : SearchEnv)
    (recurse : ℕ → ℕ → SearchState → SearchState) (viewI choice : ℕ) (sP sE : ℚ)
    (st : SearchState) (A : ℕ)
    (hrec : ∀ st1 : SearchState,
      (if viewI = env.mv.views.length - 1 then nextJointShift env recurse 0 st1
       else recurse (viewI + 1) 0 st1).preserved.length = st1.preserved.length + A) :
    (candAccept env recurse viewI 0 st choice sP sE).preserved.length =
      st.preserved.length + A := by
  unfold candAccept
  lift_lets
  extract_lets viewNum view jointType originalScore originalTerms cl1a cl1b st1 stRec clEnd
  show stRec.preserved.length = st.preserved.length + A
  have h := hrec st1
  have hp : st1.preserved = st.preserved := rfl
  rw [hp] at h
  exact h

theorem candStep_root_accepts (env : SearchEnv)
    (hepi : ∀ a b, ¬env.mv.epi a b < EPS)
    (recurse : ℕ → ℕ → SearchState → SearchState) (viewI : ℕ)
    (parentChoice : Option ℕ) (acc : SearchState × Bool) (choice : ℕ) :
    ∃ sP sE : ℚ, candStep env recurse viewI 0 parentChoice acc choice =
      (candAccept env recurse viewI 0 acc.1 choice sP sE, true) := by
  unfold candStep
  lift_lets
  extract_lets st view jointType isNotRoot parentType curJoint parentJoint scorePAF epiScan
  refine ⟨scorePAF, epiScan.2, ?_⟩
  have hgate : ¬(isNotRoot ∧ scorePAF < EPS) := fun h => h.1 rfl
  rw [if_neg hgate]
  have h2 : epiScan.1 = true :=
    epiScan_true env.mv env.vo st.cluster.choices jointType curJoint hepi
      (List.range viewI) (true, 0) rfl
  rw [if_neg (by rw [h2]; exact fun hc => nomatch hc)]

theorem candStep_count (env : SearchEnv)
    (hepi : ∀ a b, ¬env.mv.epi a b < EPS)
    (recurse : ℕ → ℕ → SearchState → SearchState) (viewI : ℕ)
    (parentChoice : Option ℕ) (acc : SearchState × Bool) (choice : ℕ) (A : ℕ)
    (hrec : ∀ st1 : SearchState,
      (if viewI = env.mv.views.length - 1 then nextJointShift env recurse 0 st1
       else recurse (viewI + 1) 0 st1).preserved.length = st1.preserved.length + A) :
    (candStep env recurse viewI 0 parentChoice acc choice).1.preserved.length =
      acc.1.preserved.length + A ∧
    (candStep env recurse viewI 0 parentChoice acc choice).2 = true := by
  obtain ⟨sP, sE, heq⟩ := candStep_root_accepts env hepi recurse viewI parentChoice acc choice
  rw [heq]
  exact ⟨candAccept_count env recurse viewI choice sP sE acc.1 A hrec, rfl⟩

theorem candFold_count {α : Type} (step : SearchState × Bool → α → SearchState × Bool)
    (A : ℕ)
    (hstep : ∀ (acc : SearchState × Bool) (c : α),
      (step acc c).1.preserved.length = acc.1.preserved.length + A ∧ (step acc c).2 = true) :
    ∀ (l : List α) (acc : SearchState × Bool),
      (l.foldl step acc).1.preserved.length = acc.1.preserved.length + l.length * A ∧
      (l ≠ [] → (l.foldl step acc).2 = true) := by
  intro l
  induction l with
  | nil =>
      intro acc
      exact ⟨by simp, fun h => absurd rfl h⟩
  | cons c rest ih =>
      intro acc
      rw [List.foldl_cons]
      constructor
      · rw [(ih (step acc c)).1, (hstep acc c).1, List.length_cons]
        ring
      · intro _
        rcases Classical.em (rest = []) with hr | hr
        · subst hr
          exact (hstep acc c).2
        · exact (ih (step acc c)).2 hr

theorem nextJointShift_count (env : SearchEnv)
    (h5 : env.mv.views.length = 5)
    (hc0 : ∀ jI, 1 ≤ jI → jI < env.jo.length →
      ((env.mv.views.getD (env.vo.getD 0 0) default).joints.getD (env.jo.getD jI 0) []).length = 0)
    (f : ℕ) (hf : env.jo.length ≤ f) (hlen1 : 1 ≤ env.jo.length) :
    ∀ st1 : SearchState, (nextJointShift env (qcompute env f) 0 st1).preserved.length =
      st1.preserved.length + 1 := by
  intro st1
  unfold nextJointShift shiftCore
  lift_lets
  extract_lets jointType view0Choice st2 st3
  show st3.preserved.length = st1.preserved.length + 1
  have h3 : st3 = qcompute env f 0 1 st2 := rfl
  have hc := qcompute_tail_count env h5 hc0 (env.jo.length - 1) f 1 st2 (by omega)
    (by omega) le_rfl
  rw [h3, hc]

theorem lastViewSkip_count (env : SearchEnv)
    (h5 : env.mv.views.length = 5)
    (hc0 : ∀ jI, 1 ≤ jI → jI < env.jo.length →
      ((env.mv.views.getD (env.vo.getD 0 0) default).joints.getD (env.jo.getD jI 0) []).length = 0)
    (f : ℕ) (hf : env.jo.length ≤ f) (hlen1 : 1 ≤ env.jo.length) :
    ∀ st : SearchState, (lastViewSkip env (qcompute env f) 0 st).preserved.length =
      st.preserved.length + 1 := by
  intro st
  unfold lastViewSkip shiftCore
  lift_lets
  extract_lets originalScore originalTerms jointType view0Choice st2 st3
  show st3.preserved.length = st.preserved.length + 1
  have h3 : st3 = qcompute env f 0 1 st2 := rfl
  have hc := qcompute_tail_count env h5 hc0 (env.jo.length - 1) f 1 st2 (by omega)
    (by omega) le_rfl
  rw [h3, hc]

theorem qcompute_last_view_count (env : SearchEnv)
    (h5 : env.mv.views.length = 5) (hlen1 : 1 ≤ env.jo.length)
    (hepi : ∀ a b, ¬env.mv.epi a b < EPS)
    (hc5 : ∀ vI, vI < 5 →
      ((env.mv.views.getD (env.vo.getD vI 0) default).joints.getD (env.jo.getD 0 0) []).length = 5)
    (hc0 : ∀ jI, 1 ≤ jI → jI < env.jo.length →
      ((env.mv.views.getD (env.vo.getD 0 0) default).joints.getD (env.jo.getD jI 0) []).length = 0) :
    ∀ (fuel : ℕ) (st : SearchState), env.jo.length + 1 ≤ fuel →
      (qcompute env fuel 4 0 st).preserved.length = st.preserved.length + 6 := by
  intro fuel st hfuel
  obtain ⟨f, rfl⟩ : ∃ f, fuel = f + 1 := ⟨fuel - 1, by omega⟩
  show (qstep env (qcompute env f) 4 0 st).preserved.length = _
  unfold qstep
  rw [if_neg (by omega : ¬(0 : ℕ) = env.jo.length)]
  lift_lets
  extract_lets viewNum view jointType isNotRoot parentType parentChoice choiceNum
    loopOut st1 successfulShift st2
  have hvn : viewNum = 5 := h5
  have hcn : choiceNum = 5 := hc5 4 (by omega)
  have hpc : parentChoice = some 0 := by
    show (if isNotRoot then st.cluster.getJoint view parentType else some 0) = some 0
    rw [if_neg (fun h => h rfl)]
  have hrec : ∀ s : SearchState,
      (if (4 : ℕ) = env.mv.views.length - 1 then nextJointShift env (qcompute env f) 0 s
       else qcompute env f (4 + 1) 0 s).preserved.length = s.preserved.length + 1 := by
    intro s
    rw [if_pos (by rw [h5] : (4 : ℕ) = env.mv.views.length - 1)]
    exact nextJointShift_count env h5 hc0 f (by omega) hlen1 s
  have hstep : ∀ (acc : SearchState × Bool) (c : ℕ),
      (candStep env (qcompute env f) 4 0 parentChoice acc c).1.preserved.length =
        acc.1.preserved.length + 1 ∧
      (candStep env (qcompute env f) 4 0 parentChoice acc c).2 = true :=
    fun acc c => candStep_count env hepi (qcompute env f) 4 parentChoice acc c 1 hrec
  have hfold := candFold_count (candStep env (qcompute env f) 4 0 parentChoice) 1 hstep
    (List.range choiceNum) (st, false)
  have hloop : loopOut = (List.range choiceNum).foldl
      (candStep env (qcompute env f) 4 0 parentChoice) (st, false) := by
    show (if parentChoice ≠ none then _ else _) = _
    rw [if_pos (by rw [hpc]; exact fun h => nomatch h)]
  rw [if_pos (by omega : (4 : ℕ) = viewNum - 1)]
  rw [lastViewSkip_count env h5 hc0 f (by omega) hlen1 st1]
  have hlen : st1.preserved.length = st.preserved.length + 5 := by
    show loopOut.1.preserved.length = _
    rw [hloop, hfold.1, hcn]
    simp
  omega

theorem qcompute_mid_view_count (env : SearchEnv)
    (h5 : env.mv.views.length = 5) (hlen1 : 1 ≤ env.jo.length)
    (hepi : ∀ a b, ¬env.mv.epi a b < EPS)
    (hc5 : ∀ vI, vI < 5 →
      ((env.mv.views.getD (env.vo.getD vI 0) default).joints.getD (env.jo.getD 0 0) []).length = 5)
    (viewI : ℕ) (h1 : 1 ≤ viewI) (h3 : viewI ≤ 3) (A B : ℕ)
    (hnext : ∀ (fuel : ℕ) (st : SearchState), B ≤ fuel →
      (qcompute env fuel (viewI + 1) 0 st).preserved.length = st.preserved.length + A) :
    ∀ (fuel : ℕ) (st : SearchState), B + 1 ≤ fuel →
      (qcompute env fuel viewI 0 st).preserved.length = st.preserved.length + 6 * A := by
  intro fuel st hfuel
  obtain ⟨f, rfl⟩ : ∃ f, fuel = f + 1 := ⟨fuel - 1, by omega⟩
  show (qstep env (qcompute env f) viewI 0 st).preserved.length = _
  unfold qstep
  rw [if_neg (by omega : ¬(0 : ℕ) = env.jo.length)]
  lift_lets
  extract_lets viewNum view jointType isNotRoot parentType parentChoice choiceNum
    loopOut st1 successfulShift st2
  have hvn : viewNum = 5 := h5
  have hcn : choiceNum = 5 := hc5 viewI (by omega)
  have hpc : parentChoice = some 0 := by
    show (if isNotRoot then st.cluster.getJoint view parentType else some 0) = some 0
    rw [if_neg (fun h => h rfl)]
  have hrec : ∀ s : SearchState,
      (if viewI = env.mv.views.length - 1 then nextJointShift env (qcompute env f) 0 s
       else qcompute env f (viewI + 1) 0 s).preserved.length = s.preserved.length + A := by
    intro s
    rw [if_neg (by rw [h5]; omega : ¬viewI = env.mv.views.length - 1)]
    exact hnext f s (by omega)
  have hstep : ∀ (acc : SearchState × Bool) (c : ℕ),
      (candStep env (qcompute env f) viewI 0 parentChoice acc c).1.preserved.length =
        acc.1.preserved.length + A ∧
      (candStep env (qcompute env f) viewI 0 parentChoice acc c).2 = true :=
    fun acc c => candStep_count env hepi (qcompute env f) viewI parentChoice acc c A hrec
  have hfold := candFold_count (candStep env (qcompute env f) viewI 0 parentChoice) A hstep
    (List.range choiceNum) (st, false)
  have hloop : loopOut = (List.range choiceNum).foldl
      (candStep env (qcompute env f) viewI 0 parentChoice) (st, false) := by
    show (if parentChoice ≠ none then _ else _) = _
    rw [if_pos (by rw [hpc]; exact fun h => nomatch h)]
  rw [if_neg (by omega : ¬viewI = viewNum - 1), if_pos (by omega : viewI ≠ 0)]
  rw [hnext f st1 (by omega)]
  have hlen : st1.preserved.length = st.preserved.length + 5 * A := by
    show loopOut.1.preserved.length = _
    rw [hloop, hfold.1, hcn]
    simp [Nat.mul_comm]
  omega

theorem qcompute_root_view_count (env : SearchEnv)
    (h5 : env.mv.views.length = 5) (hlen1 : 1 ≤ env.jo.length)
    (hepi : ∀ a b, ¬env.mv.epi a b < EPS)
    (hc5 : ∀ vI, vI < 5 →
      ((env.mv.views.getD (env.vo.getD vI 0) default).joints.getD (env.jo.getD 0 0) []).length = 5)
    (A B : ℕ)
    (hnext : ∀ (fuel : ℕ) (st : SearchState), B ≤ fuel →
      (qcompute env fuel 1 0 st).preserved.length = st.preserved.length + A) :
    ∀ (fuel : ℕ) (st : SearchState), B + 1 ≤ fuel →
      (qcompute env fuel 0 0 st).preserved.length = st.preserved.length + 5 * A := by
  intro fuel st hfuel
  obtain ⟨f, rfl⟩ : ∃ f, fuel = f + 1 := ⟨fuel - 1, by omega⟩
  show (qstep env (qcompute env f) 0 0 st).preserved.length = _
  unfold qstep
  rw [if_neg (by omega : ¬(0 : ℕ) = env.jo.length)]
  lift_lets
  extract_lets viewNum view jointType isNotRoot parentType parentChoice choiceNum
    loopOut st1 successfulShift st2
  have hvn : viewNum = 5 := h5
  have hcn : choiceNum = 5 := hc5 0 (by omega)
  have hpc : parentChoice = some 0 := by
    show (if isNotRoot then st.cluster.getJoint view parentType else some 0) = some 0
    rw [if_neg (fun h => h rfl)]
  have hrec : ∀ s : SearchState,
      (if (0 : ℕ) = env.mv.views.length - 1 then nextJointShift env (qcompute env f) 0 s
       else qcompute env f (0 + 1) 0 s).preserved.length = s.preserved.length + A := by
    intro s
    rw [if_neg (by rw [h5]; omega : ¬(0 : ℕ) = env.mv.views.length - 1)]
    exact hnext f s (by omega)
  have hstep : ∀ (acc : SearchState × Bool) (c : ℕ),
      (candStep env (qcompute env f) 0 0 parentChoice acc c).1.preserved.length =
        acc.1.preserved.length + A ∧
      (candStep env (qcompute env f) 0 0 parentChoice acc c).2 = true :=
    fun acc c => candStep_count env hepi (qcompute env f) 0 parentChoice acc c A hrec
  have hfold := candFold_count (candStep env (qcompute env f) 0 0 parentChoice) A hstep
    (List.range choiceNum) (st, false)
  have hloop : loopOut = (List.range choiceNum).foldl
      (candStep env (qcompute env f) 0 0 parentChoice) (st, false) := by
    show (if parentChoice ≠ none then _ else _) = _
    rw [if_pos (by rw [hpc]; exact fun h => nomatch h)]
  have hss : successfulShift = true := by
    show loopOut.2 = true
    rw [hloop]
    exact hfold.2 (by rw [hcn]; decide)
  rw [if_neg (by omega : ¬(0 : ℕ) = viewNum - 1),
    if_neg (fun h => h rfl : ¬(0 : ℕ) ≠ 0),
    if_neg (by rw [hss]; exact fun hc => nomatch hc)]
  show loopOut.1.preserved.length = _
  rw [hloop, hfold.1, hcn]
  simp [Nat.mul_comm]

/-- One full (viewOrder, jointOrder) pass on a frame with five root-type
candidates in every camera, no candidates for the other pass types, and no
epipolar score below EPS: exactly 5 * 6^4 = 6480 clusters are preserved. -/
theorem qcompute_pass_count (env : SearchEnv)
    (h5 : env.mv.views.length = 5) (hlen1 : 1 ≤ env.jo.length) (hlen5 : env.jo.length ≤ 5)
    (hepi : ∀ a b, ¬env.mv.epi a b < EPS)
    (hc5 : ∀ vI, vI < 5 →
      ((env.mv.views.getD (env.vo.getD vI 0) default).joints.getD (env.jo.getD 0 0) []).length = 5)
    (hc0 : ∀ jI, 1 ≤ jI → jI < env.jo.length →
      ((env.mv.views.getD (env.vo.getD 0 0) default).joints.getD (env.jo.getD jI 0) []).length = 0) :
    ∀ st : SearchState, (qcompute env searchFuel 0 0 st).preserved.length =
      st.preserved.length + 6480 := by
  intro st
  have l4 := qcompute_last_view_count env h5 hlen1 hepi hc5 hc0
  have l3 := qcompute_mid_view_count env h5 hlen1 hepi hc5 3 (by omega) (by omega)
    6 (env.jo.length + 1) l4
  have l2 := qcompute_mid_view_count env h5 hlen1 hepi hc5 2 (by omega) (by omega)
    36 (env.jo.length + 2) l3
  have l1 := qcompute_mid_view_count env h5 hlen1 hepi hc5 1 (by omega) (by omega)
    216 (env.jo.length + 3) l2
  have l0 := qcompute_root_view_count env h5 hlen1 hepi hc5
    1296 (env.jo.length + 4) l1
  have h := l0 searchFuel st (by show env.jo.length + 4 + 1 ≤ 64; omega)
  rw [h]

/-- The candidate-flooding frame: every camera sees five candidates of the
root joint type 8 (and nothing else), and every pairwise epipolar and PAF
score is 1. -/
def floodView : View :=
  { joints := (List.range 9).map
      (fun t => if t = 8 then
        (List.range 5).map (fun k => { ID := k, ray := ⟨⟨0, 0, 0⟩, ⟨1, 0, 0⟩⟩, conf := 1 })
        else []),
    paf := fun _ _ => 1 }

def mv5 : MultiView := { views := List.replicate 5 floodView, epi := fun _ _ => 1 }

theorem mv5_epi_ge : ∀ a b, ¬mv5.epi a b < EPS := by
  intro a b
  show ¬(1 : ℚ) < EPS
  norm_num [EPS]

theorem mv5_side_facts :
    ∀ vo ∈ viewOrdersSrc, ∀ jo ∈ jointOrdersSrc,
      1 ≤ jo.length ∧ jo.length ≤ 5 ∧
      (∀ vI, vI < 5 →
        ((mv5.views.getD (vo.getD vI 0) default).joints.getD (jo.getD 0 0) []).length = 5) ∧
      (∀ jI, jI < jo.length → 1 ≤ jI →
        ((mv5.views.getD (vo.getD 0 0) default).joints.getD (jo.getD jI 0) []).length = 0) := by
  decide

theorem mv5_pass_count (vo jo : List ℕ) (hvoM : vo ∈ viewOrdersSrc)
    (hjoM : jo ∈ jointOrdersSrc) :
    ∀ st : SearchState,
      (qcompute ⟨mv5, cfgNone, vo, jo⟩ searchFuel 0 0 st).preserved.length =
        st.preserved.length + 6480 := by
  obtain ⟨hl1, hl5, hc5, hc0⟩ := mv5_side_facts vo hvoM jo hjoM
  exact qcompute_pass_count ⟨mv5, cfgNone, vo, jo⟩ rfl hl1 hl5 mv5_epi_ge hc5
    (fun jI h1 h2 => hc0 jI h2 h1)

theorem mv5_inner_count (vo : List ℕ) (hvoM : vo ∈ viewOrdersSrc) :
    ∀ (jos : List (List ℕ)), (∀ jo ∈ jos, jo ∈ jointOrdersSrc) →
    ∀ st : SearchState,
      (jos.foldl (fun st jo => qcompute ⟨mv5, cfgNone, vo, jo⟩ searchFuel 0 0 st)
        st).preserved.length = st.preserved.length + jos.length * 6480 := by
  intro jos
  induction jos with
  | nil => intro _ st; simp
  | cons jo rest ih =>
      intro hsub st
      rw [List.foldl_cons, ih (fun j hj => hsub j (List.mem_cons_of_mem jo hj)) _,
        mv5_pass_count vo jo hvoM (hsub jo (List.mem_cons_self jo rest)) st,
        List.length_cons]
      ring

theorem mv5_outer_count :
    ∀ (vos : List (List ℕ)), (∀ vo ∈ vos, vo ∈ viewOrdersSrc) →
    ∀ st : SearchState,
      (vos.foldl (fun st vo =>
          jointOrdersSrc.foldl
            (fun st jo => qcompute ⟨mv5, cfgNone, vo, jo⟩ searchFuel 0 0 st)
            { st with cluster := { st.cluster with mainView := vo.getD 0 0 } })
        st).preserved.length = st.preserved.length + vos.length * 45360 := by
  intro vos
  induction vos with
  | nil => intro _ st; simp
  | cons vo rest ih =>
      intro hsub st
      rw [List.foldl_cons, ih (fun v hv => hsub v (List.mem_cons_of_mem vo hv)) _,
        mv5_inner_count vo (hsub vo (List.mem_cons_self vo rest)) jointOrdersSrc
          (fun j hj => hj) _, List.length_cons]
      show st.preserved.length + 7 * 6480 + rest.length * 45360 = _
      ring

theorem computeAll_mv5_count : (computeAll mv5 cfgNone).preserved.length = 226800 := by
  have h : (computeAll mv5 cfgNone).preserved.length =
      initialSearchState.preserved.length + viewOrdersSrc.length * 45360 :=
    mv5_outer_count viewOrdersSrc (fun _ h => h) initialSearchState
  rw [h]
  rfl

/-- C8: the hard cap maxClusterNum = 100000 is not an upper bound on the
number of preserved clusters: on the candidate-flooding frame mv5 the passes
of one compute call preserve 226800 clusters.  The C++ terminal case writes
preservedClusters[clusterNum++] without any bound check, so cluster 100001
and beyond are written past the end of the preallocated array instead of
being dropped. -/
theorem C8_cluster_cap_exceeded :
    maxClusterNum < (computeAll mv5 cfgNone).preserved.length ∧
    (computeAll mv5 cfgNone).preserved.length = 226800 := by
  rw [computeAll_mv5_count]
  exact ⟨by norm_num [maxClusterNum], rfl⟩
